import Mathlib

/-!
# Verification of the `sleek` HTML parser and selector engine

A shallow embedding, in Lean 4, of the parts of the `sleek` repository
(crates `sleek_ast`, `sleek_parser`, `sleek_utils`) that the specification
claims speak about, together with proofs and refutations of those claims.

Strings are modelled as `List Char`; Rust `Vec` as `List`; fallible or
panicking code as `Option`/`Except` (with `none` standing for a `panic!`,
`todo!`, `unreachable!` or a provable non-termination of the source); the
`HashMap` of element attributes as an association list with overwrite-on-insert
semantics.  Source-position bookkeeping (`Span`, `locus`, `set_start`,
`left`) is omitted throughout: no claim mentions spans, and position data
influences no control flow in the source.

Each definition mirrors one Rust item and is named after it; the source file
and function are given in the doc comments.
-/

namespace Sleek

/-! ## Character classes

`char::is_whitespace` in Rust tests the Unicode `White_Space` property; the
full codepoint list is reproduced here.  `u8/char::is_ascii_whitespace` is the
five-element ASCII subset used by `str::split_ascii_whitespace`. -/

/-- Rust `char::is_whitespace`: the Unicode `White_Space` codepoints. -/
def rustIsWhitespace (c : Char) : Bool :=
  c.val ∈ ([0x09, 0x0A, 0x0B, 0x0C, 0x0D, 0x20, 0x85, 0xA0, 0x1680,
    0x2000, 0x2001, 0x2002, 0x2003, 0x2004, 0x2005, 0x2006, 0x2007,
    0x2008, 0x2009, 0x200A, 0x2028, 0x2029, 0x202F, 0x205F, 0x3000] : List UInt32)

/-- Rust `char::is_ascii_whitespace`: space, tab, newline, carriage return, form feed. -/
def isAsciiWhitespace (c : Char) : Bool :=
  c = ' ' ∨ c = '\t' ∨ c = '\n' ∨ c = '\r' ∨ c = '\x0C'

/-- Rust `char::is_ascii_alphanumeric`. -/
def isAsciiAlphanumeric (c : Char) : Bool :=
  ('a' ≤ c ∧ c ≤ 'z') ∨ ('A' ≤ c ∧ c ≤ 'Z') ∨ ('0' ≤ c ∧ c ≤ '9')

/-- Rust `char::is_numeric` restricted to its use sites in the tokenizer.
The source only ever applies it to characters that already satisfy
`is_ascii_alphanumeric`, where Rust's Unicode-numeric test coincides with
being an ASCII digit. -/
def rustIsNumeric (c : Char) : Bool :=
  '0' ≤ c ∧ c ≤ '9'

/-- Rust `char::to_ascii_lowercase`. -/
def toAsciiLower (c : Char) : Char :=
  if 'A' ≤ c ∧ c ≤ 'Z' then Char.ofNat (c.toNat + 32) else c

/-! ## String splitting

`str::split(' ')` (used by `ElementRef::update_class_list`) splits at every
single occurrence of the separator and keeps empty pieces; splitting the empty
string yields one empty piece.  `str::split_ascii_whitespace` (the operation
the spec names) splits at maximal runs of ASCII whitespace and never yields an
empty piece. -/

/-- Helper for `splitOnChar`: `acc` is the current piece, reversed. -/
def splitOnCharAux (sep : Char) : List Char → List Char → List (List Char)
  | [], acc => [acc.reverse]
  | c :: cs, acc =>
    if c = sep then acc.reverse :: splitOnCharAux sep cs []
    else splitOnCharAux sep cs (c :: acc)

/-- Rust `str::split(sep)` for a one-character separator: every occurrence of
`sep` ends a piece, and empty pieces are kept. -/
def splitOnChar (sep : Char) (l : List Char) : List (List Char) :=
  splitOnCharAux sep l []

/-- Helper for `splitAsciiWhitespace`: `acc` is the current piece, reversed. -/
def splitAsciiWhitespaceAux : List Char → List Char → List (List Char)
  | [], acc => if acc.isEmpty then [] else [acc.reverse]
  | c :: cs, acc =>
    if isAsciiWhitespace c then
      if acc.isEmpty then splitAsciiWhitespaceAux cs []
      else acc.reverse :: splitAsciiWhitespaceAux cs []
    else splitAsciiWhitespaceAux cs (c :: acc)

/-- Rust `str::split_ascii_whitespace`: pieces are the maximal runs of
non-whitespace characters; no empty pieces. -/
def splitAsciiWhitespace (l : List Char) : List (List Char) :=
  splitAsciiWhitespaceAux l []

/-- `List.intercalate [sep]`, the inverse direction used to describe
canonically separated class strings. -/
def joinChar (sep : Char) : List (List Char) → List Char
  | [] => []
  | [t] => t
  | t :: ts => t ++ sep :: joinChar sep ts

/-! ## The element attribute / class-list model

From `sleek_ast/src/element.rs`.  An `Element` owns a `HashMap<String,
AttributeData>` of attributes and a `Vec<String>` class list.  Only the fields
that the attribute and class operations read or write are modelled
(`name`, `refs`, `_listeners`, `location`, `child_nodes`, `__parent` do not
participate in these operations; the child/parent structure is modelled
separately below for the tree operations). -/

/-- `AttributeData` (element.rs): the optional value of one attribute.  The
`_quote_type` field is carried by the source but never read by any modelled
operation, so it is dropped here. -/
abbrev AttrValue := Option (List Char)

/-- The attribute map: an association list with unique keys standing for the
source's `HashMap<String, AttributeData>`. -/
abbrev AttrMap := List (List Char × AttrValue)

/-- `HashMap::insert`: overwrite the value if the key is present, append
otherwise (keys are unique, so replacing the first occurrence is overwrite). -/
def insertAttr : AttrMap → List Char → AttrValue → AttrMap
  | [], k, v => [(k, v)]
  | p :: rest, k, v => if p.1 = k then (k, v) :: rest else p :: insertAttr rest k v

/-- Key lookup in the attribute map (`HashMap::get`). -/
def lookupAttr (m : AttrMap) (k : List Char) : Option AttrValue :=
  (m.find? (fun p => p.1 = k)).map (fun p => p.2)

/-- The attribute/class-list state of one element. -/
structure ElementA where
  attributes : AttrMap
  classList : List (List Char)
deriving Repr, DecidableEq

/-- A freshly created element (`Element::new`): no attributes, empty class
list. -/
def ElementA.new : ElementA := ⟨[], []⟩

/-- `ElementRef::get_attribute` (element.rs:157): `None` both when the key is
absent and when the attribute is present without a value. -/
def getAttribute (e : ElementA) (name : List Char) : Option (List Char) :=
  match lookupAttr e.attributes name with
  | some d => d
  | none => none

/-- `ElementRef::update_class_list` (element.rs:225): clear the class list;
if the `class` attribute has a value, split it on `' '` (Rust `split(' ')`,
which keeps empty pieces) and push every piece. -/
def updateClassList (e : ElementA) : ElementA :=
  match getAttribute e ['c','l','a','s','s'] with
  | some v => { e with classList := splitOnChar ' ' v }
  | none => { e with classList := [] }

/-- `ElementRef::set_attribute` (element.rs:165): insert the attribute, then
rebuild the class list when the name is `class`. -/
def setAttribute (e : ElementA) (name value : List Char) : ElementA :=
  let e' := { e with attributes := insertAttr e.attributes name (some value) }
  if name = ['c','l','a','s','s'] then updateClassList e' else e'

/-- `ElementRef::class_name` (element.rs:198): the class list joined with
single spaces. -/
def className (e : ElementA) : List Char :=
  joinChar ' ' e.classList

/-- `ElementRef::add_class` (element.rs:202): push the token onto the class
list, then write the `class` attribute as `class_name() + " " + class_name` —
where `class_name()` is computed from the list that already holds the pushed
token. -/
def addClass (e : ElementA) (cn : List Char) : ElementA :=
  let e1 := { e with classList := e.classList ++ [cn] }
  let m := insertAttr e1.attributes ['c','l','a','s','s'] (some (className e1 ++ ' ' :: cn))
  { e1 with attributes := m }

/-- `ElementRef::remove_class` (element.rs:215): retain list entries different
from the token; the `class` attribute is not touched. -/
def removeClass (e : ElementA) (cn : List Char) : ElementA :=
  { e with classList := e.classList.filter (fun c => c ≠ cn) }

/-- The literal key `"class"`. -/
def classKey : List Char := ['c','l','a','s','s']

/-! ### Lemmas: attribute insertion and the split functions -/

theorem lookupAttr_insertAttr (m : AttrMap) (k : List Char) (v : AttrValue) :
    lookupAttr (insertAttr m k v) k = some v := by
  induction m with
  | nil => simp [insertAttr, lookupAttr, List.find?]
  | cons p rest ih =>
    by_cases hp : p.1 = k
    · simp [insertAttr, hp, lookupAttr, List.find?]
    · simpa [insertAttr, hp, lookupAttr, List.find?] using ih

theorem getAttribute_setAttribute_same (e : ElementA) (k v : List Char) :
    getAttribute { e with attributes := insertAttr e.attributes k (some v) } k = some v := by
  unfold getAttribute
  rw [lookupAttr_insertAttr]

/-- After `set_attribute(e, "class", v)` the class list is `v` split at each
single `' '` occurrence. -/
theorem classList_setAttribute (e : ElementA) (v : List Char) :
    (setAttribute e classKey v).classList = splitOnChar ' ' v := by
  unfold setAttribute
  simp only [if_pos rfl]
  unfold updateClassList
  rw [show (['c','l','a','s','s'] : List Char) = classKey from rfl,
    getAttribute_setAttribute_same]
  simp

/-- A canonical token list: nonempty, every token nonempty and free of ASCII
whitespace. -/
def CanonTokens (ts : List (List Char)) : Prop :=
  ts ≠ [] ∧ ∀ t ∈ ts, t ≠ [] ∧ ∀ c ∈ t, isAsciiWhitespace c = false

instance : DecidablePred CanonTokens := fun ts => by
  unfold CanonTokens; infer_instance

theorem splitOnCharAux_no_sep (sep : Char) (t : List Char) (h : sep ∉ t) :
    ∀ acc, splitOnCharAux sep t acc = [acc.reverse ++ t] := by
  induction t with
  | nil => intro acc; simp [splitOnCharAux]
  | cons c cs ih =>
    intro acc
    simp only [List.mem_cons, not_or] at h
    simp only [splitOnCharAux]
    rw [if_neg (fun hc => h.1 hc.symm), ih h.2 (c :: acc)]
    simp

theorem splitOnCharAux_sep_split (sep : Char) (t rest : List Char) (h : sep ∉ t) :
    ∀ acc, splitOnCharAux sep (t ++ sep :: rest) acc =
      (acc.reverse ++ t) :: splitOnCharAux sep rest [] := by
  induction t with
  | nil => intro acc; simp [splitOnCharAux]
  | cons c cs ih =>
    intro acc
    simp only [List.mem_cons, not_or] at h
    simp only [List.cons_append, splitOnCharAux, List.append_eq]
    rw [if_neg (fun hc => h.1 hc.symm), ih h.2 (c :: acc)]
    simp

/-- `split(' ')` recovers a canonically single-space-joined token list. -/
theorem splitOnChar_joinChar (sep : Char) (ts : List (List Char))
    (hne : ts ≠ []) (h : ∀ t ∈ ts, sep ∉ t) :
    splitOnChar sep (joinChar sep ts) = ts := by
  induction ts with
  | nil => exact absurd rfl hne
  | cons t ts ih =>
    cases ts with
    | nil =>
      simpa [joinChar, splitOnChar] using
        splitOnCharAux_no_sep sep t (h t (by simp)) []
    | cons t' ts' =>
      have h1 : sep ∉ t := h t (by simp)
      simp only [joinChar, splitOnChar] at *
      rw [splitOnCharAux_sep_split sep t _ h1 []]
      simp only [List.reverse_nil, List.nil_append]
      rw [ih (by simp) (fun u hu => h u (by simp [hu]))]

theorem splitAsciiWhitespaceAux_no_ws (t : List Char)
    (h : ∀ c ∈ t, isAsciiWhitespace c = false) :
    ∀ cs acc, splitAsciiWhitespaceAux (t ++ cs) acc =
      splitAsciiWhitespaceAux cs (t.reverse ++ acc) := by
  induction t with
  | nil => intro cs acc; simp
  | cons c cs' ih =>
    intro cs acc
    simp only [List.cons_append, splitAsciiWhitespaceAux, List.append_eq]
    rw [h c (by simp)]
    simp only [Bool.false_eq_true, if_false]
    rw [ih (fun u hu => h u (by simp [hu])) cs (c :: acc)]
    simp

/-- `split_ascii_whitespace` recovers a canonically single-space-joined list of
nonempty whitespace-free tokens. -/
theorem splitAsciiWhitespace_joinChar (ts : List (List Char))
    (hne : ts ≠ []) (htok : ∀ t ∈ ts, t ≠ [] ∧ ∀ c ∈ t, isAsciiWhitespace c = false) :
    splitAsciiWhitespace (joinChar ' ' ts) = ts := by
  induction ts with
  | nil => exact absurd rfl hne
  | cons t ts ih =>
    have ht := htok t (by simp)
    have hre : t.reverse.isEmpty = false := by
      simp [List.isEmpty_iff, ht.1]
    cases ts with
    | nil =>
      have h0 := splitAsciiWhitespaceAux_no_ws t ht.2 [] []
      simp only [List.append_nil] at h0
      show splitAsciiWhitespaceAux t [] = [t]
      rw [h0]
      simp [splitAsciiWhitespaceAux, hre]
    | cons t' ts' =>
      have h0 := splitAsciiWhitespaceAux_no_ws t ht.2 (' ' :: joinChar ' ' (t' :: ts')) []
      show splitAsciiWhitespaceAux (t ++ ' ' :: joinChar ' ' (t' :: ts')) [] = t :: t' :: ts'
      rw [h0]
      simp only [List.append_nil, splitAsciiWhitespaceAux,
        show isAsciiWhitespace ' ' = true from rfl, if_true, hre,
        Bool.false_eq_true, if_false, List.reverse_reverse]
      have := ih (by simp) (fun u hu => htok u (by simp [hu]))
      simpa [splitAsciiWhitespace] using this

/-! ### Claim C2 -/

/-- C2 (amended).  `set_attribute(E, "class", v)` followed by `class_list(E)`
yields `v` split at every single `' '` character, empty tokens included
(`update_class_list` uses Rust `split(' ')`, not `split_ascii_whitespace`);
when `v` is a canonical single-space join of nonempty whitespace-free tokens,
this coincides with `split_ascii_whitespace(v)`. -/
theorem c2_set_class_attribute_split (e : ElementA) (v : List Char) :
    (setAttribute e classKey v).classList = splitOnChar ' ' v ∧
    (∀ ts, CanonTokens ts → v = joinChar ' ' ts →
      (setAttribute e classKey v).classList = splitAsciiWhitespace v) := by
  refine ⟨classList_setAttribute e v, fun ts hc hv => ?_⟩
  have hsp : ∀ t ∈ ts, ' ' ∉ t := by
    intro t ht hmem
    have := (hc.2 t ht).2 ' ' hmem
    simp [isAsciiWhitespace] at this
  rw [classList_setAttribute e v, hv, splitOnChar_joinChar ' ' ts hc.1 hsp,
    splitAsciiWhitespace_joinChar ts hc.1 hc.2]

/-- Witness for C2 at the element with no attributes and `v = "a b"`. -/
theorem c2_set_class_attribute_split_witness :
    (setAttribute ElementA.new classKey ['a',' ','b']).classList =
      splitAsciiWhitespace ['a',' ','b'] :=
  (c2_set_class_attribute_split ElementA.new ['a',' ','b']).2 [['a'],['b']] (by decide) rfl

/-- C2 counterexample: for the nonempty value `"a  b"` (two spaces) the class
list contains an empty token, so it is not `split_ascii_whitespace(v)`. -/
theorem c2_counterexample :
    ['a',' ',' ','b'] ≠ ([] : List Char) ∧
    (setAttribute ElementA.new classKey ['a',' ',' ','b']).classList = [['a'], [], ['b']] ∧
    splitAsciiWhitespace ['a',' ',' ','b'] = [['a'], ['b']] ∧
    (setAttribute ElementA.new classKey ['a',' ',' ','b']).classList ≠
      splitAsciiWhitespace ['a',' ',' ','b'] := by
  decide

/-! ### Claim C3 -/

/-- C3 (code bug).  On a fresh element, `add_class("a")` writes the `class`
attribute as `"a a"` (the appended token twice: `class_name()` is computed
after the push) while the class list is `["a"]`, so the attribute's
whitespace-split disagrees with the class list; and `remove_class("a")`
empties the class list but leaves the attribute `"a a"` untouched. -/
theorem c3_add_remove_class_inconsistent :
    (addClass ElementA.new ['a']).classList = [['a']] ∧
    getAttribute (addClass ElementA.new ['a']) classKey = some ['a',' ','a'] ∧
    splitOnChar ' ' ['a',' ','a'] ≠ [['a']] ∧
    splitAsciiWhitespace ['a',' ','a'] ≠ [['a']] ∧
    (removeClass (addClass ElementA.new ['a']) ['a']).classList = [] ∧
    getAttribute (removeClass (addClass ElementA.new ['a']) ['a']) classKey =
      some ['a',' ','a'] := by
  decide

/-! ## The element tree: `append` and `remove`

From `sleek_ast/src/element.rs` (`impl Node for ElementRef`).  `ElementRef`s
are raw pointers to heap-allocated `Element`s; here the heap is a map from
element identities (`Nat`) to element records, and an `ElementRef` is an
identity.  Pointer equality (`PartialEq for ElementRef`) is identity equality.
Only the fields the tree operations touch (`child_nodes`, `__parent`) are
carried. -/

/-- A `child_nodes` entry (`HtmlNode`): element children by identity, other
node kinds opaque. -/
inductive HNodeT where
  | elem (id : Nat)
  | text
  | comment
  | doctype
deriving Repr, DecidableEq

/-- The tree-relevant state of one element. -/
structure ElemState where
  childNodes : List HNodeT
  parent : Option Nat
deriving Repr, DecidableEq

/-- The element heap. -/
abbrev Heap := Nat → ElemState

def updateHeap (h : Heap) (i : Nat) (e : ElemState) : Heap :=
  fun j => if j = i then e else h j

/-- `Node::append` for `ElementRef` (element.rs:250): set the child's parent
back-link to the parent, then push the child onto the parent's
`child_nodes`. -/
def appendChild (h : Heap) (p c : Nat) : Heap :=
  let h1 := updateHeap h c { h c with parent := some p }
  updateHeap h1 p { h1 p with childNodes := (h1 p).childNodes ++ [HNodeT.elem c] }

/-- `Node::remove` for `ElementRef` (element.rs:268): retain every child node
that is not the removed element (all occurrences go), then clear the child's
parent back-link. -/
def removeChild (h : Heap) (p c : Nat) : Heap :=
  let h1 := updateHeap h p
    { h p with childNodes := (h p).childNodes.filter (fun n => n ≠ HNodeT.elem c) }
  updateHeap h1 c { h1 c with parent := none }

/-- `Node::children` (element.rs:288): the element entries of `child_nodes`. -/
def childrenOf (h : Heap) (p : Nat) : List HNodeT :=
  (h p).childNodes.filter (fun n => match n with | HNodeT.elem _ => true | _ => false)

theorem appendChild_childNodes (h : Heap) (p c : Nat) :
    ((appendChild h p c) p).childNodes = (h p).childNodes ++ [HNodeT.elem c] := by
  by_cases hpc : p = c <;>
    simp [appendChild, updateHeap, hpc]

theorem removeChild_childNodes (h : Heap) (p c : Nat) :
    ((removeChild h p c) p).childNodes =
      (h p).childNodes.filter (fun n => n ≠ HNodeT.elem c) := by
  by_cases hpc : p = c <;>
    simp [removeChild, updateHeap, hpc]

theorem removeChild_parent (h : Heap) (p c : Nat) :
    ((removeChild h p c) c).parent = none := by
  simp [removeChild, updateHeap]

theorem filter_append_singleton_self (c : Nat) (l : List HNodeT)
    (hl : HNodeT.elem c ∉ l) :
    (l ++ [HNodeT.elem c]).filter (fun n => n ≠ HNodeT.elem c) = l := by
  rw [List.filter_append]
  have h1 : l.filter (fun n => n ≠ HNodeT.elem c) = l :=
    List.filter_eq_self.mpr (fun a ha => by
      simp only [ne_eq, decide_not, Bool.not_eq_true', decide_eq_false_iff_not]
      exact fun he => hl (he ▸ ha))
  have h2 : ([HNodeT.elem c] : List HNodeT).filter (fun n => n ≠ HNodeT.elem c) = [] := by
    simp
  rw [h1, h2, List.append_nil]

/-! ### Claim C9 -/

/-- C9 (amended).  Provided the child is not already among the parent's child
nodes, `append(P, C); remove(P, C)` restores `child_nodes(P)` (hence
`children(P)`) exactly and leaves `parent(C) = None`. -/
theorem c9_append_remove (h : Heap) (p c : Nat)
    (hnotin : HNodeT.elem c ∉ (h p).childNodes) :
    ((removeChild (appendChild h p c) p c) p).childNodes = (h p).childNodes ∧
    childrenOf (removeChild (appendChild h p c) p c) p = childrenOf h p ∧
    ((removeChild (appendChild h p c) p c) c).parent = none := by
  have h1 : ((removeChild (appendChild h p c) p c) p).childNodes = (h p).childNodes := by
    rw [removeChild_childNodes, appendChild_childNodes,
      filter_append_singleton_self c _ hnotin]
  refine ⟨h1, ?_, removeChild_parent _ p c⟩
  unfold childrenOf
  rw [h1]

/-- Witness for C9: a two-element heap, parent `0` with no children, child
`1`. -/
theorem c9_append_remove_witness :
    ((removeChild (appendChild (fun _ => ⟨[], none⟩) 0 1) 0 1) 0).childNodes = [] ∧
    ((removeChild (appendChild (fun _ => ⟨[], none⟩) 0 1) 0 1) 1).parent = none := by
  refine ⟨?_, ?_⟩
  · exact (c9_append_remove (fun _ => ⟨[], none⟩) 0 1 (by decide)).1
  · exact (c9_append_remove (fun _ => ⟨[], none⟩) 0 1 (by decide)).2.2

/-- C9 counterexample: if the child already occurs among the parent's child
nodes, `append; remove` does not restore `children(P)` — `remove` deletes the
pre-existing occurrence too. -/
theorem c9_counterexample :
    ((removeChild
        (appendChild (fun i => if i = 0 then ⟨[HNodeT.elem 1], none⟩ else ⟨[], none⟩) 0 1)
        0 1) 0).childNodes = [] ∧
    ((fun i => if i = 0 then (⟨[HNodeT.elem 1], none⟩ : ElemState) else ⟨[], none⟩)
        0).childNodes = [HNodeT.elem 1] ∧
    ([] : List HNodeT) ≠ [HNodeT.elem 1] := by
  refine ⟨?_, by decide, by decide⟩
  rw [removeChild_childNodes, appendChild_childNodes]
  decide

/-! ## The document tree and query traversal

From `sleek_ast/src/query.rs`.  `query_selector` and `query_selector_all` are
trait defaults over `children()`, the element entries of a node list, so they
apply uniformly to the document root and to elements.  A root is therefore a
node list here.  The per-element data is the part of `Element` that the
selector matcher reads (tag name, attributes, class list).

In the source every visited `ElementRef` carries its parent links, and
`ElementRef::matches` reads them (combinator selectors walk `parent()` and
sibling lists), so the per-element match test is a function of the element
*in its tree context*.  The traversal here therefore threads that context: an
element under test is a zipper — its data, its child nodes, and the chain of
ancestor frames (each frame: the ancestor's data, its full `child_nodes`, and
the index of the node below it in that list, standing for the source's
pointer identity — the same representation the matcher below uses). -/

/-- The matcher-visible data of one element. -/
structure EData where
  tagName : List Char
  attributes : AttrMap
  classList : List (List Char)
deriving Repr, DecidableEq

/-- `ElementRef::get_attribute` for the matcher-visible data. -/
def EData.getAttr (d : EData) (name : List Char) : Option (List Char) :=
  match lookupAttr d.attributes name with
  | some v => v
  | none => none

/-- A document node (`HtmlNode`): an element with its subtree, or an opaque
non-element node. -/
inductive DomNode where
  | elem (data : EData) (childNodes : List DomNode)
  | text
  | comment
  | doctype

/-- `HtmlNode::is_element` (html_node.rs:99). -/
def DomNode.isElem : DomNode → Bool
  | .elem _ _ => true
  | _ => false

/-- One ancestor frame of the zipper. -/
structure ZipFrame where
  data : EData
  childNodes : List DomNode
  idx : Nat

/-- An element in its tree context. -/
structure EZip where
  data : EData
  childNodes : List DomNode
  up : List ZipFrame

/-- `Node::parent` under the zipper view. -/
def EZip.parent (z : EZip) : Option EZip :=
  match z.up with
  | [] => none
  | f :: rest => some ⟨f.data, f.childNodes, rest⟩

/-- The ancestor chain of the node at index `j` of the node list `all`, whose
parent context is `pf`: `none` for the document root (its top-level nodes have
no parent), `some (pd, up)` for the children of an element with data `pd` and
own ancestor chain `up`. -/
def upOf (pf : Option (EData × List ZipFrame)) (all : List DomNode) (j : Nat) :
    List ZipFrame :=
  match pf with
  | some (pd, up) => ⟨pd, all, j⟩ :: up
  | none => []

/-- `Query::query_selector` (query.rs:8) with the per-element match test `q`
on the element-in-context (for a selector value `sel` it is instantiated with
`compareSel sel`, the embedding of `ElementRef::matches`): walk `children()`
in order, count every node of the list (`j` is the index in the full
`child_nodes`, the matcher's stand-in for pointer identity) and test every
element; return a matching child, else search its subtree, else move to the
next child.  The outer `Option` threads a panic/non-termination of the match
test (`q ... = none`, the `todo!()` and diverging branches of `compare`); the
inner one is the source's `Option<ElementRef>`. -/
def querySelector (q : EZip → Option Bool) (pf : Option (EData × List ZipFrame))
    (all : List DomNode) : List DomNode → Nat → Option (Option EZip)
  | [], _ => some none
  | DomNode.elem d cs :: rest, j =>
    match q ⟨d, cs, upOf pf all j⟩ with
    | none => none
    | some true => some (some ⟨d, cs, upOf pf all j⟩)
    | some false =>
      match querySelector q (some (d, upOf pf all j)) cs cs 0 with
      | none => none
      | some (some r) => some (some r)
      | some none => querySelector q pf all rest (j + 1)
  | _ :: rest, j => querySelector q pf all rest (j + 1)

/-- `Query::query_selector_all` (query.rs:21): push a matching child, then
(when it `has_children`) append the matches of its subtree, then continue with
the next child.  The `Option` threads a panic/non-termination of the match
test, as in `querySelector`. -/
def querySelectorAll (q : EZip → Option Bool) (pf : Option (EData × List ZipFrame))
    (all : List DomNode) : List DomNode → Nat → Option (List EZip)
  | [], _ => some []
  | DomNode.elem d cs :: rest, j =>
    match q ⟨d, cs, upOf pf all j⟩ with
    | none => none
    | some b =>
      match (if cs.isEmpty then some []
             else querySelectorAll q (some (d, upOf pf all j)) cs cs 0) with
      | none => none
      | some sub =>
        match querySelectorAll q pf all rest (j + 1) with
        | none => none
        | some tail =>
          some ((if b then [(⟨d, cs, upOf pf all j⟩ : EZip)] else []) ++ (sub ++ tail))
  | _ :: rest, j => querySelectorAll q pf all rest (j + 1)

/-- The depth-first pre-order enumeration of the element descendants of a node
list, as elements-in-context: each element, then its subtree's elements, then
its later siblings. -/
def preorderZips (pf : Option (EData × List ZipFrame)) (all : List DomNode) :
    List DomNode → Nat → List EZip
  | [], _ => []
  | DomNode.elem d cs :: rest, j =>
    ⟨d, cs, upOf pf all j⟩ ::
      (preorderZips (some (d, upOf pf all j)) cs cs 0 ++ preorderZips pf all rest (j + 1))
  | _ :: rest, j => preorderZips pf all rest (j + 1)

theorem querySelector_eq_find (q : EZip → Option Bool) :
    ∀ (pf : Option (EData × List ZipFrame)) (all ns : List DomNode) (j : Nat),
      (∀ z ∈ preorderZips pf all ns j, (q z).isSome) →
      querySelector q pf all ns j =
        some ((preorderZips pf all ns j).find? (fun z => q z == some true)) := by
  intro pf all ns j
  induction pf, all, ns, j using querySelector.induct q with
  | case1 pf all j =>
    intro _
    simp [querySelector, preorderZips]
  | case2 pf all d cs rest j hq =>
    intro h
    have := h ⟨d, cs, upOf pf all j⟩ (by simp [preorderZips])
    rw [hq] at this
    simp at this
  | case3 pf all d cs rest j hq =>
    intro _
    simp only [querySelector, preorderZips, hq]
    rw [List.find?_cons_of_pos _ (by simp [hq])]
  | case4 pf all d cs rest j hq hsub ih1 =>
    intro h
    have hs : ∀ z ∈ preorderZips (some (d, upOf pf all j)) cs cs 0, (q z).isSome := by
      intro z hz
      exact h z (by simp [preorderZips, hz])
    rw [ih1 hs] at hsub
    exact absurd hsub (by simp)
  | case5 pf all d cs rest j hq r hsub ih1 =>
    intro h
    have hs : ∀ z ∈ preorderZips (some (d, upOf pf all j)) cs cs 0, (q z).isSome := by
      intro z hz
      exact h z (by simp [preorderZips, hz])
    have hfind := ih1 hs
    rw [hsub] at hfind
    simp only [querySelector, preorderZips, hq, hsub]
    rw [List.find?_cons_of_neg _ (by simp [hq]), List.find?_append, ← Option.some_inj.mp hfind]
    simp
  | case6 pf all d cs rest j hq hsub ih1 ih2 =>
    intro h
    have hs : ∀ z ∈ preorderZips (some (d, upOf pf all j)) cs cs 0, (q z).isSome := by
      intro z hz
      exact h z (by simp [preorderZips, hz])
    have hr : ∀ z ∈ preorderZips pf all rest (j + 1), (q z).isSome := by
      intro z hz
      exact h z (by simp [preorderZips, hz])
    have hfind := ih1 hs
    rw [hsub] at hfind
    simp only [querySelector, preorderZips, hq, hsub]
    rw [ih2 hr, List.find?_cons_of_neg _ (by simp [hq]), List.find?_append,
      ← Option.some_inj.mp hfind]
    simp
  | case7 pf all head rest j hne ih =>
    intro h
    match head, hne with
    | DomNode.text, _ =>
      simpa [querySelector, preorderZips] using ih (by simpa [preorderZips] using h)
    | DomNode.comment, _ =>
      simpa [querySelector, preorderZips] using ih (by simpa [preorderZips] using h)
    | DomNode.doctype, _ =>
      simpa [querySelector, preorderZips] using ih (by simpa [preorderZips] using h)
    | DomNode.elem d cs, hne => exact absurd rfl (hne d cs)

theorem querySelectorAll_eq_filter (q : EZip → Option Bool) :
    ∀ (pf : Option (EData × List ZipFrame)) (all ns : List DomNode) (j : Nat),
      (∀ z ∈ preorderZips pf all ns j, (q z).isSome) →
      querySelectorAll q pf all ns j =
        some ((preorderZips pf all ns j).filter (fun z => q z == some true)) := by
  intro pf all ns j
  induction pf, all, ns, j using querySelectorAll.induct q with
  | case1 pf all j =>
    intro _
    simp [querySelectorAll, preorderZips]
  | case2 pf all d cs rest j hq =>
    intro h
    have := h ⟨d, cs, upOf pf all j⟩ (by simp [preorderZips])
    rw [hq] at this
    simp at this
  | case3 pf all d cs rest j b hq hsub ih1 =>
    intro h
    have hs : ∀ z ∈ preorderZips (some (d, upOf pf all j)) cs cs 0, (q z).isSome := by
      intro z hz
      exact h z (by simp [preorderZips, hz])
    cases hcs : cs.isEmpty with
    | true => simp [hcs] at hsub
    | false =>
      simp only [hcs, Bool.false_eq_true, dite_false] at hsub
      rw [ih1 hs] at hsub
      exact absurd hsub (by simp)
  | case4 pf all d cs rest j b hq sub hsub hrest ih1 ih2 =>
    intro h
    have hr : ∀ z ∈ preorderZips pf all rest (j + 1), (q z).isSome := by
      intro z hz
      exact h z (by simp [preorderZips, hz])
    rw [ih2 hr] at hrest
    exact absurd hrest (by simp)
  | case5 pf all d cs rest j b hq sub hsub tail hrest ih1 ih2 =>
    intro h
    have hs : ∀ z ∈ preorderZips (some (d, upOf pf all j)) cs cs 0, (q z).isSome := by
      intro z hz
      exact h z (by simp [preorderZips, hz])
    have hr : ∀ z ∈ preorderZips pf all rest (j + 1), (q z).isSome := by
      intro z hz
      exact h z (by simp [preorderZips, hz])
    cases hcs : cs.isEmpty with
    | true =>
      have hnil : cs = [] := by simpa [List.isEmpty_iff] using hcs
      subst hnil
      cases b <;>
        simp [querySelectorAll, preorderZips, hq, ih2 hr, List.filter_cons,
          List.filter_append]
    | false =>
      cases b <;>
        simp [querySelectorAll, preorderZips, hq, hcs, ih1 hs, ih2 hr, List.filter_cons,
          List.filter_append]
  | case6 pf all head rest j hne ih =>
    intro h
    match head, hne with
    | DomNode.text, _ =>
      simpa [querySelectorAll, preorderZips] using ih (by simpa [preorderZips] using h)
    | DomNode.comment, _ =>
      simpa [querySelectorAll, preorderZips] using ih (by simpa [preorderZips] using h)
    | DomNode.doctype, _ =>
      simpa [querySelectorAll, preorderZips] using ih (by simpa [preorderZips] using h)
    | DomNode.elem d cs, hne => exact absurd rfl (hne d cs)

/-! ## The synchronous parser's token iterator

From `sleek_parser/src/html/parser/synchronous.rs`.  The parser drains its
token vector front-to-back, but implements the front removal with
`Vec::swap_remove`: a forward `index` walks the first half, and a backward
`rev_separator` (initialized to half the token count, `len >> 1`) walks the
swapped values.  Claim C10 is that this yields the tokens in the naive
front-removal order. -/

/-- Rust `Vec::swap_remove(i)`: return element `i` after moving the last
element into its place; `none` when `i` is out of bounds (a Rust panic, never
reached from `next`). -/
def swapRemove (l : List α) (i : Nat) : Option (α × List α) :=
  match l.getLast? with
  | none => none
  | some last =>
    match l[i]? with
    | none => none
    | some v => some (v, (l.set i last).dropLast)

/-- The iterator state of `SyncHtmlParser` (`tokens`, `index`,
`rev_separator`). -/
structure TokIter (α : Type _) where
  toks : List α
  index : Nat
  rev : Nat

/-- `Iterator::next` for `SyncHtmlParser` (synchronous.rs:157): remove at the
forward `index` while more than `rev_separator` tokens remain, otherwise step
`rev_separator` backwards and remove there. -/
def syncNext (s : TokIter α) : Option (α × TokIter α) :=
  if s.toks.length = 0 then none
  else if s.toks.length > s.rev then
    match swapRemove s.toks s.index with
    | some (v, l) => some (v, ⟨l, s.index + 1, s.rev⟩)
    | none => none
  else
    match swapRemove s.toks (s.rev - 1) with
    | some (v, l) => some (v, ⟨l, s.index, s.rev - 1⟩)
    | none => none

/-- Drain the iterator, collecting the yielded tokens in order (`fuel` bounds
the loop; the token count is always enough fuel). -/
def drainIter : Nat → TokIter α → List α
  | 0, _ => []
  | n + 1, s =>
    match syncNext s with
    | none => []
    | some (v, s') => v :: drainIter n s'

theorem swapRemove_concat_mid (P M : List α) (m z : α) :
    swapRemove (P ++ m :: (M ++ [z])) P.length = some (m, P ++ z :: M) := by
  unfold swapRemove
  rw [show P ++ m :: (M ++ [z]) = (P ++ m :: M) ++ [z] by simp]
  rw [List.getLast?_concat]
  rw [show (P ++ m :: M) ++ [z] = P ++ m :: (M ++ [z]) by simp]
  rw [List.getElem?_append_right (Nat.le_refl P.length)]
  simp only [Nat.sub_self, List.getElem?_cons_zero]
  rw [List.set_append_right _ _ (Nat.le_refl P.length)]
  simp only [Nat.sub_self, List.set_cons_zero]
  rw [show P ++ z :: (M ++ [z]) = (P ++ z :: M) ++ [z] by simp]
  rw [List.dropLast_concat]

theorem swapRemove_concat_last (P : List α) (z : α) :
    swapRemove (P ++ [z]) P.length = some (z, P) := by
  unfold swapRemove
  rw [List.getLast?_concat, List.getElem?_concat_length]
  show some (z, ((P ++ [z]).set P.length z).dropLast) = some (z, P)
  rw [List.set_append_right _ _ (Nat.le_refl P.length)]
  simp only [Nat.sub_self, List.set_cons_zero]
  rw [List.dropLast_concat]

/-- Naively removing tokens one at a time from the front of the vector yields
the vector's elements in order. -/
def frontDrain : List α → List α
  | [] => []
  | t :: rest => t :: frontDrain rest

theorem frontDrain_eq_self (l : List α) : frontDrain l = l := by
  induction l with
  | nil => rfl
  | cons t rest ih => simp [frontDrain, ih]

/-- The drain invariant: a reachable iterator state has shape `⟨P ++ M, i,
min len ((i + len) / 2)⟩` where `P` holds swapped-in elements (later read in
reverse), `M` the untouched remainder; draining yields `M ++ P.reverse`. -/
theorem drainIter_core (n : Nat) :
    ∀ (P M : List α) (i : Nat),
      n = (P ++ M).length →
      P.length ≤ i →
      (M ≠ [] → i = P.length) →
      drainIter n ⟨P ++ M, i, min (P ++ M).length ((i + (P ++ M).length) / 2)⟩ =
        M ++ P.reverse := by
  induction n with
  | zero =>
    intro P M i hlen hPi hMi
    have hlens : P.length = 0 ∧ M.length = 0 := by
      simp only [List.length_append] at hlen
      omega
    have hP : P = [] := List.length_eq_zero.mp hlens.1
    have hM : M = [] := List.length_eq_zero.mp hlens.2
    subst hP; subst hM
    simp [drainIter]
  | succ n ih =>
    intro P M i hlen hPi hMi
    by_cases hfwd : (P ++ M).length > min (P ++ M).length ((i + (P ++ M).length) / 2)
    · -- forward phase
      have hdlt : (i + (P ++ M).length) / 2 < (P ++ M).length := by omega
      have hilt : i < (P ++ M).length := by omega
      have hMne : M ≠ [] := by
        intro hM
        subst hM
        simp only [List.append_nil] at hilt
        omega
      have hiP : i = P.length := hMi hMne
      subst hiP
      obtain ⟨m, M', hM⟩ : ∃ m M', M = m :: M' := by
        cases M with
        | nil => exact absurd rfl hMne
        | cons m M' => exact ⟨m, M', rfl⟩
      subst hM
      rcases List.eq_nil_or_concat M' with hM' | ⟨M'', z, hM'⟩
      · -- M = [m]
        subst hM'
        have hrev : min (P ++ [m]).length ((P.length + (P ++ [m]).length) / 2)
            = P.length := by
          simp only [List.length_append, List.length_singleton]
          omega
        rw [hrev]
        have hstep : syncNext ⟨P ++ [m], P.length, P.length⟩ =
            some (m, ⟨P, P.length + 1, P.length⟩) := by
          unfold syncNext
          rw [if_neg (by simp), if_pos (by simp)]
          rw [show (⟨P ++ [m], P.length, P.length⟩ : TokIter α).index = P.length from rfl,
            swapRemove_concat_last P m]
        simp only [drainIter, hstep]
        have hIH := ih P [] (P.length + 1)
          (by simp only [List.length_append, List.length_singleton, List.length_nil,
                List.append_nil] at hlen ⊢
              try omega)
          (by omega) (fun h => absurd rfl h)
        simp only [List.append_nil] at hIH
        rw [show min P.length ((P.length + 1 + P.length) / 2) = P.length by omega] at hIH
        rw [hIH]
        simp
      · -- M = m :: (M'' ++ [z])
        rw [List.concat_eq_append] at hM'
        subst hM'
        have hmin : min (P ++ m :: (M'' ++ [z])).length
            ((P.length + (P ++ m :: (M'' ++ [z])).length) / 2)
            = (P.length + (P ++ m :: (M'' ++ [z])).length) / 2 := by omega
        rw [hmin]
        have hstep : syncNext ⟨P ++ m :: (M'' ++ [z]), P.length,
            (P.length + (P ++ m :: (M'' ++ [z])).length) / 2⟩ =
            some (m, ⟨P ++ z :: M'', P.length + 1,
              (P.length + (P ++ m :: (M'' ++ [z])).length) / 2⟩) := by
          unfold syncNext
          rw [if_neg (by simp), if_pos hdlt]
          rw [show (⟨P ++ m :: (M'' ++ [z]), P.length, _⟩ : TokIter α).index = P.length from rfl,
            swapRemove_concat_mid P M'' m z]
        simp only [drainIter, hstep]
        have hIH := ih (P ++ [z]) M'' (P.length + 1)
          (by simp only [List.length_append, List.length_cons, List.length_singleton,
                List.length_nil] at hlen ⊢
              try omega)
          (by simp only [List.length_append, List.length_singleton]; try omega)
          (fun _ => by simp only [List.length_append, List.length_singleton]; try omega)
        rw [show (P ++ [z]) ++ M'' = P ++ z :: M'' by simp] at hIH
        rw [show min (P ++ z :: M'').length ((P.length + 1 + (P ++ z :: M'').length) / 2)
            = (P.length + (P ++ m :: (M'' ++ [z])).length) / 2 from by
          simp only [List.length_append, List.length_cons, List.length_singleton, List.length_nil]
          omega] at hIH
        rw [hIH]
        simp
    · -- backward phase
      have hmin : min (P ++ M).length ((i + (P ++ M).length) / 2) = (P ++ M).length := by
        omega
      have hile : (P ++ M).length ≤ i := by omega
      have hM : M = [] := by
        by_contra hMne
        have hiP : i = P.length := hMi hMne
        have hMlen : M.length ≠ 0 := fun h => hMne (List.length_eq_zero.mp h)
        simp only [List.length_append] at hile
        omega
      subst hM
      simp only [List.append_nil] at hlen hile hmin ⊢
      have hPne : P ≠ [] := by
        intro h
        rw [h] at hlen
        simp at hlen
      rcases List.eq_nil_or_concat P with h | ⟨P0, z, hP⟩
      · exact absurd h hPne
      rw [List.concat_eq_append] at hP
      subst hP
      rw [hmin]
      have hstep : syncNext ⟨P0 ++ [z], i, (P0 ++ [z]).length⟩ =
          some (z, ⟨P0, i, (P0 ++ [z]).length - 1⟩) := by
        unfold syncNext
        rw [if_neg (by simp), if_neg (by simp)]
        rw [show (P0 ++ [z]).length - 1 = P0.length by simp]
        rw [show (⟨P0 ++ [z], i, (P0 ++ [z]).length⟩ : TokIter α).index = i from rfl,
          swapRemove_concat_last P0 z]
      simp only [drainIter, hstep]
      have hIH := ih P0 [] i
        (by simp only [List.length_append, List.length_singleton, List.append_nil,
              List.length_nil] at hlen ⊢
            try omega)
        (by simp only [List.length_append, List.length_singleton] at hile; omega)
        (fun h => absurd rfl h)
      simp only [List.append_nil] at hIH
      rw [show min P0.length ((i + P0.length) / 2) = (P0 ++ [z]).length - 1 from by
        simp only [List.length_append, List.length_singleton] at hile ⊢
        omega] at hIH
      rw [hIH]
      simp [List.reverse_concat]

/-! ### Claim C10 -/

/-- C10.  For every initial token vector, the `swap_remove`-based iterator of
`SyncHtmlParser` — forward `index`, backward `rev_separator` initialized to
`len >> 1` — yields exactly the tokens of the vector in exactly the order of
naive front removal. -/
theorem c10_swap_remove_iterator_order (ts : List α) :
    drainIter ts.length ⟨ts, 0, ts.length >>> 1⟩ = frontDrain ts := by
  have h1 : ts.length >>> 1 = min ts.length ((0 + ts.length) / 2) := by
    rw [Nat.shiftRight_eq_div_pow]
    omega
  have := drainIter_core ts.length [] ts 0 (by simp) (by simp) (fun _ => rfl)
  simpa [h1, frontDrain_eq_self] using this

/-! ## The character queue stream

`sleek_utils::QueueIterator`: a FIFO pushback queue (`push` appends at the
back, `next` pops the front) in front of the remaining input.  The
`MatrixIterator` layer underneath only tracks row/column positions, which are
omitted (no claim depends on them, and they influence no control flow). -/

/-- A queue iterator over characters: the pushback queue and the remaining
underlying input. -/
structure QStream where
  queue : List Char
  input : List Char
deriving Repr, DecidableEq

/-- `QueueIterator::next`: pop the front of the queue, else the input. -/
def qNext : QStream → Option (Char × QStream)
  | ⟨c :: q, inp⟩ => some (c, ⟨q, inp⟩)
  | ⟨[], c :: inp⟩ => some (c, ⟨[], inp⟩)
  | ⟨[], []⟩ => none

/-- `QueueIterator::push`: append to the back of the queue. -/
def qPush (c : Char) (s : QStream) : QStream :=
  ⟨s.queue ++ [c], s.input⟩

/-- Characters left to read. -/
def QStream.remaining (s : QStream) : Nat :=
  s.queue.length + s.input.length

theorem qNext_remaining {s : QStream} {c : Char} {s' : QStream}
    (h : qNext s = some (c, s')) : s'.remaining < s.remaining := by
  match s, h with
  | ⟨a :: q, inp⟩, h =>
    cases h
    simp [QStream.remaining]
  | ⟨[], a :: inp⟩, h =>
    cases h
    simp [QStream.remaining]

/-- `QueueIterator::next_while`, on explicit fuel (`remaining + 1` at the
wrapper is always enough: every iteration consumes a character). -/
def qNextWhileF (p : Char → Bool) : Nat → QStream → QStream
  | 0, s => s
  | n + 1, s =>
    match qNext s with
    | none => s
    | some (c, s') => if p c then qNextWhileF p n s' else qPush c s'

/-- `QueueIterator::next_while`: consume while the predicate holds; the first
failing character is pushed back. -/
def qNextWhile (p : Char → Bool) (s : QStream) : QStream :=
  qNextWhileF p (s.remaining + 1) s

/-- `QueueIterator::next_until`, on explicit fuel. -/
def qNextUntilF (p : Char → Bool) : Nat → QStream → QStream
  | 0, s => s
  | n + 1, s =>
    match qNext s with
    | none => s
    | some (c, s') => if p c then qPush c s' else qNextUntilF p n s'

/-- `QueueIterator::next_until`: consume until the predicate holds; the first
matching character is pushed back. -/
def qNextUntil (p : Char → Bool) (s : QStream) : QStream :=
  qNextUntilF p (s.remaining + 1) s

/-- `QueueIterator::collect_until`, on explicit fuel. -/
def qCollectUntilF (p : Char → Bool) : Nat → QStream → List Char × QStream
  | 0, s => ([], s)
  | n + 1, s =>
    match qNext s with
    | none => ([], s)
    | some (c, s') =>
      if p c then ([], qPush c s')
      else
        let r := qCollectUntilF p n s'
        (c :: r.1, r.2)

/-- `QueueIterator::collect_until`: collect characters until the predicate
holds; the first matching character is pushed back. -/
def qCollectUntil (p : Char → Bool) (s : QStream) : List Char × QStream :=
  qCollectUntilF p (s.remaining + 1) s

/-- `HigherOrderIterator::collect_next(n)`: consume up to `n` characters. -/
def qCollectNext : Nat → QStream → List Char × QStream
  | 0, s => ([], s)
  | n + 1, s =>
    match qNext s with
    | none => ([], s)
    | some (c, s') =>
      let (cs, s'') := qCollectNext n s'
      (c :: cs, s'')

/-- `Iterator::find(p)`, on explicit fuel. -/
def qFindF (p : Char → Bool) : Nat → QStream → QStream
  | 0, s => s
  | n + 1, s =>
    match qNext s with
    | none => s
    | some (c, s') => if p c then s' else qFindF p n s'

/-- `Iterator::find(p)`: consume up to and including the first matching
character. -/
def qFind (p : Char → Bool) (s : QStream) : QStream :=
  qFindF p (s.remaining + 1) s

/-! ## The selector engine: data model

From `sleek_ast/src/selector/{mod,pattern,store,parser}.rs`. -/

/-- `HtmlTag::new` — `tag.rs` is not among the provided sources.
Modelled from the spec: §3 says "Tags are case-normalized to lowercase and
carry a small known-tag discriminator", and tag equality is equality of the
normalized tag, so a tag is modelled as its lowercased name. -/
def htmlTagNew (s : List Char) : List Char :=
  s.map toAsciiLower

/-- `SelectorError` (selector/parser.rs:8). -/
inductive SelectorError where
  | multipleIds
  | invalidTag
  | emptySelector
  | invalidSelector
deriving Repr, DecidableEq

/-- `PseudoClass` (selector/pattern.rs). -/
inductive PseudoClassT where
  | root
  | empty
deriving Repr, DecidableEq

mutual
/-- `Selector` (selector/mod.rs:13): a conjunction of patterns. -/
inductive Selector where
  | mk (patterns : List SelectorPattern)

/-- `SelectorPattern` (selector/pattern.rs). -/
inductive SelectorPattern where
  | universal
  | tag (t : List Char)
  | cls (name : List Char)
  | id (name : List Char)
  | attribute (key : List Char) (value : Option (List Char))
  | descendant (anc cur : Selector)
  | child (par cur : Selector)
  | adjacentSibling (prev cur : Selector)
  | generalSibling (prev cur : Selector)
  | group (alts : List Selector)
  | pseudoClass (name : PseudoClassT)
end

/-- The pattern list of a selector. -/
def Selector.patterns : Selector → List SelectorPattern
  | .mk ps => ps

/-- `Vec::contains(&SelectorPattern::Id(name))` (store.rs:46): structural
equality with an `Id` pattern holds exactly for an `Id` with the same name. -/
def containsIdPattern (ps : List SelectorPattern) (name : List Char) : Bool :=
  ps.any (fun p =>
    match p with
    | .id n => n = name
    | _ => false)

/-- `SelectorStore` (selector/store.rs:10). -/
structure SelectorStore where
  selectors : List Selector
  hasData : Bool
  cache0 : List Char
  cache1 : List Char

/-- `SelectorStore::new` (store.rs:18). -/
def SelectorStore.new : SelectorStore :=
  ⟨[Selector.mk []], false, [], []⟩

/-- `SelectorStore::collect` (store.rs:81). -/
def storeCollect (st : SelectorStore) (c : Char) : SelectorStore :=
  { st with hasData := true, cache0 := st.cache0 ++ [c] }

/-- `SelectorStore::collect_2` (store.rs:87). -/
def storeCollect2 (st : SelectorStore) (c : Char) : SelectorStore :=
  { st with hasData := true, cache1 := st.cache1 ++ [c] }

/-- `Emit` (selector/parser.rs:28). -/
inductive SelEmit where
  | tag
  | id
  | cls
  | universal
  | attribute
deriving Repr, DecidableEq

/-- `Relation` (selector/parser.rs:36). -/
inductive SelRelation where
  | descendant
  | child
  | adjacentSibling
  | generalSibling
  | group
deriving Repr, DecidableEq

/-- A fallible store step: `ok`, a `SelectorError`, or a source panic
(`unwrap` on an empty collection, `todo!()`). -/
inductive SelStep (σ : Type _) where
  | ok (st : σ)
  | err (e : SelectorError)
  | panic

/-- `SelectorStore::emit` (store.rs:30): refuse when the cache is empty; build
the pattern (`Id` checked against the host's existing patterns); push it into
the host selector — into the last group alternative when `patterns[0]` is a
`Group`, into the child selector when `patterns[0]` is a `Descendant`, else
onto the host's pattern list.  Caches are drained. -/
def storeEmit (st : SelectorStore) (ev : SelEmit) : SelStep SelectorStore :=
  if !st.hasData then .err .invalidSelector
  else
    match st.selectors with
    | [] => .panic
    | Selector.mk hostPats :: restSels =>
      let data := st.cache0
      let patRes : SelStep SelectorPattern :=
        match ev with
        | .tag => .ok (.tag (htmlTagNew data))
        | .id =>
          if containsIdPattern hostPats data then .err .multipleIds
          else .ok (.id data)
        | .cls => .ok (.cls data)
        | .universal => .ok .universal
        | .attribute =>
          .ok (.attribute data (if st.cache1.isEmpty then none else some st.cache1))
      match patRes with
      | .err e => .err e
      | .panic => .panic
      | .ok pat =>
        let newHostPats : Option (List SelectorPattern) :=
          match hostPats with
          | SelectorPattern.group gs :: tailPats =>
            match gs.getLast? with
            | none => none
            | some (Selector.mk lastPats) =>
              some (SelectorPattern.group
                (gs.dropLast ++ [Selector.mk (lastPats ++ [pat])]) :: tailPats)
          | SelectorPattern.descendant anc (Selector.mk childPats) :: tailPats =>
            some (SelectorPattern.descendant anc
              (Selector.mk (childPats ++ [pat])) :: tailPats)
          | _ => some (hostPats ++ [pat])
        match newHostPats with
        | none => .panic
        | some ps =>
          .ok { selectors := Selector.mk ps :: restSels, hasData := false,
                cache0 := [],
                cache1 := match ev with | .attribute => [] | _ => st.cache1 }

/-- `SelectorStore::shift` (store.rs:94): pop the last selector; when its
`patterns[0]` is a `Group`, wrap the group's last alternative in the relation
and push the selector back; otherwise push a fresh selector and wrap the
popped one in the relation at `patterns[0]` of `selectors[0]`.  The sibling
relations are `todo!()` (a panic). -/
def storeShift (st : SelectorStore) (rel : SelRelation) : SelStep SelectorStore :=
  match st.selectors.getLast? with
  | none => .panic
  | some (Selector.mk lastPats) =>
    let remaining := st.selectors.dropLast
    match lastPats with
    | SelectorPattern.group gs :: tailPats =>
      match rel with
      | .descendant =>
        match gs.getLast? with
        | none => .panic
        | some lastAdded =>
          let gs' := gs.dropLast ++
            [Selector.mk [SelectorPattern.descendant lastAdded (Selector.mk [])]]
          .ok { st with selectors :=
                  remaining ++ [Selector.mk (SelectorPattern.group gs' :: tailPats)] }
      | .child =>
        match gs.getLast? with
        | none => .panic
        | some lastAdded =>
          let gs' := gs.dropLast ++
            [Selector.mk [SelectorPattern.child lastAdded (Selector.mk [])]]
          .ok { st with selectors :=
                  remaining ++ [Selector.mk (SelectorPattern.group gs' :: tailPats)] }
      | .group =>
        .ok { st with selectors :=
                remaining ++ [Selector.mk (SelectorPattern.group (gs ++ [Selector.mk []])
                  :: tailPats)] }
      | .adjacentSibling => .panic
      | .generalSibling => .panic
    | _ =>
      let popped := Selector.mk lastPats
      match remaining ++ [Selector.mk []] with
      | [] => .panic
      | Selector.mk ps0 :: restSels =>
        match rel with
        | .descendant =>
          .ok { st with selectors :=
                  Selector.mk (ps0 ++ [SelectorPattern.descendant popped (Selector.mk [])])
                    :: restSels }
        | .child =>
          .ok { st with selectors :=
                  Selector.mk (ps0 ++ [SelectorPattern.child popped (Selector.mk [])])
                    :: restSels }
        | .group =>
          .ok { st with selectors :=
                  Selector.mk (ps0 ++ [SelectorPattern.group [popped, Selector.mk []]])
                    :: restSels }
        | .adjacentSibling => .panic
        | .generalSibling => .panic

/-! ## The selector parser state machine

From `sleek_ast/src/selector/parser.rs` (`parse_selector`).  One `selStep` is
one iteration of the source's `loop`; the straight-line inner loops of the
`AttributeValue` state are recursive helpers.  Outcomes: continue, success
(`Ok(store)` at a `break`), a `SelectorError`, a source panic (`todo!()` in
`PossibleEnd`, `unwrap`s in the store), or a provable non-termination of the
source (the unquoted attribute-value loop, see `selAttrValueGather`). -/

/-- `State` (selector/parser.rs:15). -/
inductive SelState where
  | start
  | tagName
  | cls
  | id
  | attributeName
  | attributeValue
  | universal
  | possibleEnd
  | possibleNext
  | compulsoryNext
deriving Repr, DecidableEq

/-- The selector parser configuration: current state, character stream,
store. -/
structure SelCfg where
  state : SelState
  stream : QStream
  store : SelectorStore

/-- Result of one parser step. -/
inductive SelStepRes where
  | cont (cfg : SelCfg)
  | halt (store : SelectorStore)
  | err (e : SelectorError)
  | panic
  | diverge

/-- The whitespace set the parser matches explicitly:
`'\t' | '\n' | '\x0C' | ' ' | '\r'`. -/
def isSelWs (c : Char) : Bool :=
  c = '\t' ∨ c = '\n' ∨ c = '\x0C' ∨ c = ' ' ∨ c = '\r'

/-- The pattern-delimiter set the parser matches explicitly:
`'[' | '.' | ':' | '#' | ','`. -/
def isSelDelim (c : Char) : Bool :=
  c = '[' ∨ c = '.' ∨ c = ':' ∨ c = '#' ∨ c = ','

/-- `'A'..='Z' | 'a'..='z' | '_' | '-'` (the `Start` tag-lead class). -/
def isTagLead (c : Char) : Bool :=
  ('A' ≤ c ∧ c ≤ 'Z') ∨ ('a' ≤ c ∧ c ≤ 'z') ∨ c = '_' ∨ c = '-'

/-- `'a'..='z' | 'A'..='Z' | '0'..='9' | '_' | '-'` (the `TagName`
continuation class). -/
def isTagChar (c : Char) : Bool :=
  isTagLead c ∨ ('0' ≤ c ∧ c ≤ '9')

/-- `AttributeQuoteType` (sleek_ast/src/token.rs:61). -/
inductive AttributeQuote where
  | single
  | double
  | noQuote
deriving Repr, DecidableEq

/-- The value-gathering loop of the `AttributeValue` state
(selector/parser.rs:156).  For an unquoted value the `']'` arm pushes the
character back *and* collects it without breaking, so the loop re-reads the
same `']'` forever: the source does not terminate there, which this embedding
records as `diverge`. -/
def selAttrValueGatherF (qt : AttributeQuote) :
    Nat → SelectorStore → QStream → SelStepRes ⊕ (SelectorStore × QStream)
  | 0, _, _ => Sum.inl .diverge
  | n + 1, st, s =>
    match qNext s with
    | none => Sum.inl (.err .invalidSelector)
    | some (c, s') =>
      if (qt = .single ∧ c = '\'') ∨ (qt = .double ∧ c = '"') then Sum.inr (st, s')
      else if qt = .noQuote ∧ c = ']' then Sum.inl .diverge
      else if qt = .noQuote ∧ (c = '>' ∨ c = '/' ∨ rustIsWhitespace c) then
        Sum.inl (.err .invalidSelector)
      else selAttrValueGatherF qt n (storeCollect2 st c) s'

def selAttrValueGather (qt : AttributeQuote) (st : SelectorStore) (s : QStream) :
    SelStepRes ⊕ (SelectorStore × QStream) :=
  selAttrValueGatherF qt (s.remaining + 1) st s

/-- One iteration of the `parse_selector` loop (selector/parser.rs:53). -/
def selStep (cfg : SelCfg) : SelStepRes :=
  match cfg.state with
  | .start =>
    match qNext cfg.stream with
    | none => .err .emptySelector
    | some (c, s') =>
      if isSelWs c then .cont { cfg with stream := s' }
      else if c = '.' then .cont { cfg with state := .cls, stream := s' }
      else if c = '*' then .cont { cfg with state := .universal, stream := s' }
      else if c = '#' then .cont { cfg with state := .id, stream := s' }
      else if c = '[' then .cont { cfg with state := .attributeName, stream := s' }
      else if isTagLead c then
        .cont { cfg with state := .tagName, stream := s', store := storeCollect cfg.store c }
      else if '0' ≤ c ∧ c ≤ '9' then .err .invalidTag
      else .err .invalidSelector
  | .cls =>
    match qNext cfg.stream with
    | none =>
      match storeEmit cfg.store .cls with
      | .ok st => .halt st
      | .err e => .err e
      | .panic => .panic
    | some (c, s') =>
      if isSelWs c then
        match storeEmit cfg.store .cls with
        | .ok st => .cont { state := .possibleNext, stream := s', store := st }
        | .err e => .err e
        | .panic => .panic
      else if isSelDelim c then
        match storeEmit cfg.store .cls with
        | .ok st => .cont { state := .start, stream := qPush c s', store := st }
        | .err e => .err e
        | .panic => .panic
      else .cont { cfg with stream := s', store := storeCollect cfg.store c }
  | .universal =>
    match storeEmit { cfg.store with hasData := true } .universal with
    | .err e => .err e
    | .panic => .panic
    | .ok st =>
      match qNext cfg.stream with
      | none => .halt st
      | some (c, s') =>
        if isSelWs c then .cont { state := .possibleNext, stream := s', store := st }
        else if isSelDelim c then .cont { state := .start, stream := qPush c s', store := st }
        else if c = '>' ∨ c = '+' ∨ c = '~' then
          .cont { state := .possibleNext, stream := qPush c s', store := st }
        else .err .invalidSelector
  | .id =>
    match qNext cfg.stream with
    | none =>
      match storeEmit cfg.store .id with
      | .ok st => .halt st
      | .err e => .err e
      | .panic => .panic
    | some (c, s') =>
      if isSelWs c then
        match storeEmit cfg.store .id with
        | .ok st => .cont { state := .possibleNext, stream := s', store := st }
        | .err e => .err e
        | .panic => .panic
      else if isSelDelim c then
        match storeEmit cfg.store .id with
        | .ok st => .cont { state := .start, stream := qPush c s', store := st }
        | .err e => .err e
        | .panic => .panic
      else .cont { cfg with stream := s', store := storeCollect cfg.store c }
  | .attributeName =>
    match qNext cfg.stream with
    | none => .err .invalidSelector
    | some (c, s') =>
      if isSelWs c ∨ isSelDelim c then .err .invalidSelector
      else if c = '=' then .cont { cfg with state := .attributeValue, stream := s' }
      else if c = ']' then
        match storeEmit cfg.store .attribute with
        | .ok st => .cont { state := .possibleEnd, stream := s', store := st }
        | .err e => .err e
        | .panic => .panic
      else .cont { cfg with stream := s', store := storeCollect cfg.store c }
  | .attributeValue =>
    match qNext cfg.stream with
    | none => .err .invalidSelector
    | some (c, s0) =>
      let quoted : SelStepRes ⊕ (AttributeQuote × QStream) :=
        if c = '\'' then Sum.inr (.single, s0)
        else if c = '"' then Sum.inr (.double, s0)
        else if c = '<' then Sum.inl (.err .invalidSelector)
        else Sum.inr (.noQuote, qPush c s0)
      match quoted with
      | Sum.inl r => r
      | Sum.inr (qt, s1) =>
        match selAttrValueGather qt cfg.store s1 with
        | Sum.inl r => r
        | Sum.inr (st, s2) =>
          let s3 := qNextWhile rustIsWhitespace s2
          match qNext s3 with
          | some (c2, s4) =>
            if c2 = ']' then
              match storeEmit st .attribute with
              | .ok st' => .cont { state := .possibleEnd, stream := s4, store := st' }
              | .err e => .err e
              | .panic => .panic
            else .err .invalidSelector
          | none => .err .invalidSelector
  | .tagName =>
    match qNext cfg.stream with
    | none =>
      match storeEmit cfg.store .tag with
      | .ok st => .halt st
      | .err e => .err e
      | .panic => .panic
    | some (c, s') =>
      if isSelWs c then
        match storeEmit cfg.store .tag with
        | .ok st => .cont { state := .possibleNext, stream := s', store := st }
        | .err e => .err e
        | .panic => .panic
      else if isSelDelim c then
        match storeEmit cfg.store .tag with
        | .ok st => .cont { state := .start, stream := qPush c s', store := st }
        | .err e => .err e
        | .panic => .panic
      else if isTagChar c then .cont { cfg with stream := s', store := storeCollect cfg.store c }
      else .err .invalidSelector
  | .possibleEnd =>
    match qNext cfg.stream with
    | none => .halt cfg.store
    | some (c, s') =>
      if isSelDelim c then .cont { cfg with state := .start, stream := qPush c s' }
      else if isSelWs c then .cont { cfg with state := .possibleNext, stream := qPush c s' }
      else .panic
  | .possibleNext =>
    match qNext cfg.stream with
    | none => .halt cfg.store
    | some (c, s') =>
      if isSelWs c then .cont { cfg with stream := qNextWhile rustIsWhitespace s' }
      else if c = '>' then
        match storeShift cfg.store .child with
        | .ok st => .cont { state := .compulsoryNext, stream := s', store := st }
        | .err e => .err e
        | .panic => .panic
      else
        match storeShift cfg.store .descendant with
        | .ok st => .cont { state := .start, stream := qPush c s', store := st }
        | .err e => .err e
        | .panic => .panic
  | .compulsoryNext =>
    match qNext cfg.stream with
    | none => .err .invalidSelector
    | some (c, s') =>
      if isSelWs c then .cont { cfg with stream := s' }
      else .cont { cfg with state := .start, stream := qPush c s' }

/-- The outcome of `parse_selector`. -/
inductive SelParseRes where
  | ok (store : SelectorStore)
  | err (e : SelectorError)
  | panic
  | diverge
  | outOfFuel
deriving Nonempty

/-- Run the parser loop for at most `fuel` steps. -/
def parseSelLoop : Nat → SelCfg → SelParseRes
  | 0, _ => .outOfFuel
  | n + 1, cfg =>
    match selStep cfg with
    | .cont c => parseSelLoop n c
    | .halt st => .ok st
    | .err e => .err e
    | .panic => .panic
    | .diverge => .diverge

/-- `parse_selector` (selector/parser.rs:48) over a character list. -/
def parseSelector (fuel : Nat) (s : List Char) : SelParseRes :=
  parseSelLoop fuel ⟨.start, ⟨[], s⟩, SelectorStore.new⟩

/-! ## The selector matcher

From `sleek_ast/src/selector/mod.rs` (`Selector::compare`).  `compare` walks
parent links and sibling lists, so an element under test is the zipper `EZip`
defined with the query traversal above.  `Option Bool` results: `none` marks
a source panic (`PseudoClass` is `todo!()`) or a provable source
non-termination (the `AdjacentSibling` scan, see `comparePat`). -/

mutual

/-- `Selector::compare` (selector/mod.rs:21): every pattern of the selector
must pass; the first failure short-circuits to `false`. -/
def compareSel : Selector → EZip → Option Bool
  | .mk ps, z => comparePats ps z
termination_by s _ => (sizeOf s, 0)

def comparePats : List SelectorPattern → EZip → Option Bool
  | [], _ => some true
  | p :: ps, z =>
    match comparePat p z with
    | none => none
    | some false => some false
    | some true => comparePats ps z
termination_by ps _ => (sizeOf ps, 0)

/-- One pattern of the `compare` loop.  `AdjacentSibling`: the source finds
the node just before the element; when that node is not an element and its
index is positive, the source's `while` loop re-reads the same node without
advancing and never terminates (`none` here); when the index is positive it
inspects the node one further to the left exactly once. -/
def comparePat : SelectorPattern → EZip → Option Bool
  | .universal, _ => some true
  | .tag t, z => some (z.data.tagName = t)
  | .cls name, z => some (z.data.classList.contains name)
  | .id name, z => some (z.data.getAttr ['i','d'] = some name)
  | .attribute key vOpt, z =>
    match z.data.getAttr key with
    | none => some false
    | some ev =>
      match vOpt with
      | some sv => some (sv = ev)
      | none => some true
  | .descendant anc cur, z =>
    match compareSel cur z with
    | none => none
    | some false => some false
    | some true => walkUp anc z.up
  | .child par cur, z =>
    match compareSel cur z with
    | none => none
    | some false => some false
    | some true =>
      match z.up with
      | [] => some false
      | f :: rest => compareSel par ⟨f.data, f.childNodes, rest⟩
  | .adjacentSibling prev cur, z =>
    match compareSel cur z with
    | none => none
    | some false => some false
    | some true =>
      match z.up with
      | [] => some false
      | f :: rest =>
        if f.idx = 0 then some false
        else
          match f.childNodes[f.idx - 1]? with
          | none => none
          | some (DomNode.elem d cs) =>
            compareSel prev ⟨d, cs, ⟨f.data, f.childNodes, f.idx - 1⟩ :: rest⟩
          | some _ =>
            if f.idx - 1 = 0 then some false
            else
              match f.childNodes[f.idx - 2]? with
              | none => none
              | some (DomNode.elem d cs) =>
                compareSel prev ⟨d, cs, ⟨f.data, f.childNodes, f.idx - 2⟩ :: rest⟩
              | some _ => none
  | .generalSibling prev cur, z =>
    match compareSel cur z with
    | none => none
    | some false => some false
    | some true =>
      match z.up with
      | [] => some false
      | f :: rest => compareSibs prev f.data f.childNodes f.idx rest f.childNodes 0
  | .group gs, z => compareGroup gs z
  | .pseudoClass _, _ => none
termination_by p _ => (sizeOf p, 0)

/-- The ancestor walk of the `Descendant` pattern: succeed at the first
matching ancestor, fail at the root. -/
def walkUp : Selector → List ZipFrame → Option Bool
  | _, [] => some false
  | sel, f :: rest =>
    match compareSel sel ⟨f.data, f.childNodes, rest⟩ with
    | none => none
    | some true => some true
    | some false => walkUp sel rest
termination_by s fr => (sizeOf s, fr.length + 1)

/-- The `Group` pattern: any alternative matches. -/
def compareGroup : List Selector → EZip → Option Bool
  | [], _ => some false
  | g :: gs, z =>
    match compareSel g z with
    | none => none
    | some true => some true
    | some false => compareGroup gs z
termination_by gs _ => (sizeOf gs, 0)

/-- The `GeneralSibling` scan over the parent's element children, skipping the
element itself (position `myIdx` — the stand-in for pointer identity). -/
def compareSibs (sel : Selector) (pData : EData) (pChildren : List DomNode)
    (myIdx : Nat) (rest : List ZipFrame) :
    List DomNode → Nat → Option Bool
  | [], _ => some false
  | DomNode.elem d cs :: ns, j =>
    if j = myIdx then compareSibs sel pData pChildren myIdx rest ns (j + 1)
    else
      match compareSel sel ⟨d, cs, ⟨pData, pChildren, j⟩ :: rest⟩ with
      | none => none
      | some true => some true
      | some false => compareSibs sel pData pChildren myIdx rest ns (j + 1)
  | _ :: ns, j => compareSibs sel pData pChildren myIdx rest ns (j + 1)
termination_by ns _ => (sizeOf sel, ns.length + 1)

end

/-! ### Claims C4 and C5 -/

/-- The pattern list of the host selector of a successful parse. -/
def SelParseRes.hostPatterns : SelParseRes → Option (List SelectorPattern)
  | .ok st =>
    match st.selectors with
    | Selector.mk ps :: _ => some ps
    | [] => none
  | _ => none

/-- C4 counterexample: `parse_selector("#a#b")` does not fail — it succeeds,
with the two distinct id patterns `#a` and `#b` both in the selector.  The
duplicate check (`store.rs:46`) only rejects an id pattern structurally equal
to one already present. -/
theorem c4_counterexample :
    (parseSelector 100 ['#','a','#','b']).hostPatterns =
      some [SelectorPattern.id ['a'], SelectorPattern.id ['b']] ∧
    parseSelector 100 ['#','a','#','b'] ≠ SelParseRes.err SelectorError.multipleIds := by
  refine ⟨rfl, fun h => ?_⟩
  have h1 : (parseSelector 100 ['#','a','#','b']).hostPatterns =
      some [SelectorPattern.id ['a'], SelectorPattern.id ['b']] := rfl
  rw [h] at h1
  simp [SelParseRes.hostPatterns] at h1

/-- C4 (amended).  Only a *repeated identical* id pattern is rejected with
`MultipleIds`: emitting an id whose pattern already occurs among the host's
patterns fails with `MultipleIds` — in particular
`parse_selector("#a#a") = Err(MultipleIds)` — while two distinct ids (as in
`"#a#b"`) are accepted. -/
theorem c4_multiple_ids_same_id (st : SelectorStore) (hostPats : List SelectorPattern)
    (rest : List Selector)
    (hsel : st.selectors = Selector.mk hostPats :: rest)
    (hdata : st.hasData = true)
    (hdup : containsIdPattern hostPats st.cache0 = true) :
    storeEmit st SelEmit.id = SelStep.err SelectorError.multipleIds ∧
    parseSelector 100 ['#','a','#','a'] = SelParseRes.err SelectorError.multipleIds := by
  constructor
  · unfold storeEmit
    rw [hdata, hsel]
    simp [hdup]
  · rfl

/-- Witness for C4 at a store holding the host patterns `[#a]` and the cached
id name `a`. -/
theorem c4_multiple_ids_same_id_witness :
    storeEmit ⟨[Selector.mk [SelectorPattern.id ['a']]], true, ['a'], []⟩ SelEmit.id =
      SelStep.err SelectorError.multipleIds :=
  (c4_multiple_ids_same_id ⟨[Selector.mk [SelectorPattern.id ['a']]], true, ['a'], []⟩
    [SelectorPattern.id ['a']] [] rfl rfl rfl).1

theorem compareSel_group (gs : List Selector) (z : EZip) :
    compareSel (Selector.mk [SelectorPattern.group gs]) z = compareGroup gs z := by
  cases h : compareGroup gs z with
  | none => simp [compareSel, comparePats, comparePat, h]
  | some b => cases b <;> simp [compareSel, comparePats, comparePat, h]

theorem compareGroup_any (gs : List Selector) (z : EZip)
    (h : ∀ g ∈ gs, (compareSel g z).isSome) :
    compareGroup gs z = some (gs.any (fun g => compareSel g z = some true)) := by
  induction gs with
  | nil => simp [compareGroup]
  | cons g gs ih =>
    obtain ⟨b, hb⟩ := Option.isSome_iff_exists.mp (h g (by simp))
    cases b with
    | true => simp [compareGroup, hb]
    | false =>
      rw [show compareGroup (g :: gs) z = compareGroup gs z by simp [compareGroup, hb]]
      rw [ih (fun g' hg' => h g' (by simp [hg']))]
      simp [hb]

/-- C5 counterexample: the comma-separated group selector `"p, div"` does not
parse — the `Start` state has no `','` arm, so after `p` is emitted the
pushed-back comma is rejected with `InvalidSelector` (and `parse_selector`
never builds a `Group`: `shift(Relation::Group)` has no call site). -/
theorem c5_counterexample :
    parseSelector 100 ['p', ',', ' ', 'd', 'i', 'v'] =
      SelParseRes.err SelectorError.invalidSelector := rfl

/-- C5 (amended).  A comma group selector string such as `"p, div"` is
rejected with `InvalidSelector`; for a `Group` selector *value* (the data
model and matcher do support it), `compare` matches an element exactly when at
least one of the alternatives matches it (alternatives evaluated left to
right; the hypothesis rules out the `todo!()`/non-terminating branches). -/
theorem c5_group_selector (gs : List Selector) (z : EZip)
    (h : ∀ g ∈ gs, (compareSel g z).isSome) :
    parseSelector 100 ['p', ',', ' ', 'd', 'i', 'v'] =
      SelParseRes.err SelectorError.invalidSelector ∧
    (compareSel (Selector.mk [SelectorPattern.group gs]) z = some true ↔
      ∃ g ∈ gs, compareSel g z = some true) := by
  refine ⟨rfl, ?_⟩
  rw [compareSel_group, compareGroup_any gs z h]
  simp

/-- Witness for C5: the group `(p, div)` matches a `div` element. -/
theorem c5_group_selector_witness :
    compareSel (Selector.mk [SelectorPattern.group
      [Selector.mk [SelectorPattern.tag ['p']],
       Selector.mk [SelectorPattern.tag ['d','i','v']]]])
      ⟨⟨['d','i','v'], [], []⟩, [], []⟩ = some true :=
  (c5_group_selector
    [Selector.mk [SelectorPattern.tag ['p']],
     Selector.mk [SelectorPattern.tag ['d','i','v']]]
    ⟨⟨['d','i','v'], [], []⟩, [], []⟩
    (by intro g hg
        fin_cases hg <;> simp [compareSel, comparePats, comparePat])).2.mpr
    ⟨Selector.mk [SelectorPattern.tag ['d','i','v']], by simp,
      by simp [compareSel, comparePats, comparePat]⟩

/-! ### Claim C6 -/

/-- C6.  For every selector value `sel` (the parse of any parseable selector
string) and every root — the document (`pf = none`) or an element `E` in its
context (`pf = some (E.data, E.up)` with `all = E.childNodes`) — such that the
match test `compareSel sel` (the embedding of `matches(·, sel)`) hits no
`todo!()`/diverging branch on any element descendant, `query_selector`
returns the pre-order-first element descendant (in its context) that matches
— `None` inside when no descendant matches — and `query_selector_all`
returns all matching element descendants in the same pre-order. -/
theorem c6_query_selector_preorder (sel : Selector)
    (pf : Option (EData × List ZipFrame)) (all : List DomNode)
    (h : ∀ z ∈ preorderZips pf all all 0, (compareSel sel z).isSome) :
    querySelector (compareSel sel) pf all all 0 =
      some ((preorderZips pf all all 0).find? (fun z => compareSel sel z == some true)) ∧
    querySelectorAll (compareSel sel) pf all all 0 =
      some ((preorderZips pf all all 0).filter (fun z => compareSel sel z == some true)) :=
  ⟨querySelector_eq_find (compareSel sel) pf all all 0 h,
   querySelectorAll_eq_filter (compareSel sel) pf all all 0 h⟩

/-- The matcher-visible data of `<div>`, `<b>` and `<span>` elements with no
attributes, and the two-branch document `<div><b></b></div><span><b></b></span>`. -/
def edivC6 : EData := ⟨['d','i','v'], [], []⟩

def ebC6 : EData := ⟨['b'], [], []⟩

def espanC6 : EData := ⟨['s','p','a','n'], [], []⟩

def docC6 : List DomNode :=
  [DomNode.elem edivC6 [DomNode.elem ebC6 []],
   DomNode.elem espanC6 [DomNode.elem ebC6 []]]

/-- The descendant selector `div b`. -/
def selDivB : Selector :=
  Selector.mk [SelectorPattern.descendant
    (Selector.mk [SelectorPattern.tag ['d','i','v']])
    (Selector.mk [SelectorPattern.tag ['b']])]

/-- Witness for C6: on the document `<div><b></b></div><span><b></b></span>`
with the descendant selector `div b`, the pre-order-first match is the `b`
under the `div`; the `b` under the `span` — same data, same subtree, different
ancestor chain — does not match, so it is absent from `query_selector_all`. -/
theorem c6_query_selector_preorder_witness :
    querySelector (compareSel selDivB) none docC6 docC6 0 =
      some (some ⟨ebC6, [], [⟨edivC6, [DomNode.elem ebC6 []], 0⟩]⟩) ∧
    querySelectorAll (compareSel selDivB) none docC6 docC6 0 =
      some [⟨ebC6, [], [⟨edivC6, [DomNode.elem ebC6 []], 0⟩]⟩] := by
  have hc := c6_query_selector_preorder selDivB none docC6 (by
    intro z hz
    simp only [docC6, preorderZips, upOf, List.mem_cons, List.mem_append,
      List.not_mem_nil, or_false] at hz
    rcases hz with rfl | rfl | rfl | rfl <;>
      simp [selDivB, compareSel, comparePats, comparePat, walkUp, edivC6, ebC6, espanC6])
  obtain ⟨h1, h2⟩ := hc
  constructor
  · rw [h1]
    simp [docC6, preorderZips, upOf, selDivB, compareSel, comparePats, comparePat,
      walkUp, edivC6, ebC6, espanC6, List.find?]
  · rw [h2]
    simp [docC6, preorderZips, upOf, selDivB, compareSel, comparePats, comparePat,
      walkUp, edivC6, ebC6, espanC6, List.filter]

/-! ## The HTML tokenizer: data model and token store

From `sleek_parser/src/html/tokenizer/{state,store}.rs` and
`sleek_ast/src/token.rs`.  Spans and the matrix locus are omitted (position
bookkeeping only).  The sync parse installs no token listener, so `emit`
appends to the token vector.  Note: `state.rs` passes a `force_quirks` flag to
the doctype emission, but the live `Event::DocType`/`HtmlToken::DocType` of
`store.rs`/`token.rs` carry only root and identifier, so the flag is
dropped. -/

/-- `HtmlParseErrorType` (sleek_parser/src/html/error.rs). -/
inductive HtmlParseErrorType where
  | invalidCharacter
  | unexpectedEndOfInput
  | unexpectedCharacter (c : Char)
  | expectedTagName
  | unclosedComment
  | indecipherableDocType
  | selfClosingNonVoidTag
  | voidElementEndTag (t : List Char)
  | unclosedTag (t : List Char)
  | unexpectedCloseTag (t : List Char)
deriving Repr, DecidableEq

/-- `DocTypeIdentifier` (token.rs:68). -/
inductive DocTypeIdentifier where
  | system
  | public
deriving Repr, DecidableEq

/-- `HtmlAttribute` (token.rs:49). -/
structure HtmlAttributeT where
  key : List Char
  value : Option (List Char)
  quoteType : AttributeQuote
deriving Repr, DecidableEq

/-- `HtmlToken` (token.rs:6), spans omitted; tag names normalized through
`HtmlTag::new`. -/
inductive HtmlTokenT where
  | docType (root : List Char) (identifier : Option DocTypeIdentifier)
  | openingTag (name : List Char) (attributes : List HtmlAttributeT) (selfClosing : Bool)
  | closingTag (name : List Char)
  | text (content : List Char)
  | comment (content : List Char)
  | eof
deriving Repr, DecidableEq

/-- `HtmlToken::is_eof` (token.rs:43). -/
def HtmlTokenT.isEof : HtmlTokenT → Bool
  | .eof => true
  | _ => false

/-- `State` (tokenizer/state.rs:11). -/
inductive TokState where
  | data
  | openingTag
  | closingTag
  | bogusComment
  | attributeName
  | comment
  | attributeValue
  | doctype
deriving Repr, DecidableEq

/-- The tokenizer configuration: machine state, character stream, and the
`TokenStore` fields (`cache` triple, `has_data`, `attrib_store`, `tokens`,
`errors`). -/
structure TokCfg where
  state : TokState
  stream : QStream
  cache0 : List Char
  cacheName : List Char
  cacheValue : Option (List Char)
  hasData : Bool
  attribs : List HtmlAttributeT
  tokens : List HtmlTokenT
  errors : List HtmlParseErrorType
deriving Repr, DecidableEq

/-- `TokenStore::push` (store.rs:33): sets `has_data`. -/
def tsPush (c : Char) (cfg : TokCfg) : TokCfg :=
  { cfg with hasData := true, cache0 := cfg.cache0 ++ [c] }

/-- `TokenStore::push_str` (store.rs:39): does *not* set `has_data`. -/
def tsPushStr (s : List Char) (cfg : TokCfg) : TokCfg :=
  { cfg with cache0 := cfg.cache0 ++ s }

/-- `TokenStore::push_attr_name` (store.rs:43). -/
def tsPushAttrName (c : Char) (cfg : TokCfg) : TokCfg :=
  { cfg with cacheName := cfg.cacheName ++ [c] }

/-- `TokenStore::push_attr_value` (store.rs:47). -/
def tsPushAttrValue (c : Char) (cfg : TokCfg) : TokCfg :=
  { cfg with cacheValue := some ((cfg.cacheValue.getD []) ++ [c]) }

/-- `TokenStore::collect_attribute` (store.rs:57): take name and value into a
new attribute. -/
def tsCollectAttr (qt : AttributeQuote) (cfg : TokCfg) : TokCfg :=
  { cfg with attribs := cfg.attribs ++ [⟨cfg.cacheName, cfg.cacheValue, qt⟩],
             cacheName := [], cacheValue := none }

/-- `TokenStore::error` (store.rs:110), position dropped. -/
def tsError (e : HtmlParseErrorType) (cfg : TokCfg) : TokCfg :=
  { cfg with errors := cfg.errors ++ [e] }

/-- `TokenStore::clear` (store.rs:131): drains the caches but does not reset
`has_data`. -/
def tsClear (cfg : TokCfg) : TokCfg :=
  { cfg with cache0 := [], cacheName := [], cacheValue := none }

/-- `Event` (store.rs:13). -/
inductive TokEvent where
  | text
  | close
  | comment
  | openerTag (selfClosing : Bool)
  | docType (root : List Char) (identifier : Option DocTypeIdentifier)

/-- `TokenStore::emit` (store.rs:69), no listener installed: take the cache as
content, reset `has_data`; drop a whitespace-only text token; an opening tag
takes the attribute store. -/
def tsEmit (ev : TokEvent) (cfg : TokCfg) : TokCfg :=
  let content := cfg.cache0
  let cfg1 := { cfg with cache0 := [], hasData := false }
  match ev with
  | .text =>
    if content.all rustIsWhitespace then cfg1
    else { cfg1 with tokens := cfg1.tokens ++ [.text content] }
  | .openerTag sc =>
    let toks := cfg1.tokens ++ [HtmlTokenT.openingTag (htmlTagNew content) cfg1.attribs sc]
    { cfg1 with tokens := toks, attribs := [] }
  | .close => { cfg1 with tokens := cfg1.tokens ++ [.closingTag (htmlTagNew content)] }
  | .comment => { cfg1 with tokens := cfg1.tokens ++ [.comment content] }
  | .docType root ident => { cfg1 with tokens := cfg1.tokens ++ [.docType root ident] }

/-! ## The tokenizer inner loops

Each is a terminating recursion: every non-exiting iteration consumes at
least one character net. -/

/-- How the `AttributeName` collection loop (state.rs:200) exits. -/
inductive AttrNameExit where
  | gotEq
  | toOpening
  | wsBreak
  | endedExit
deriving Repr, DecidableEq

/-- The `AttributeName` collection loop (state.rs:204): whitespace skips to
the next attribute (re-queuing the first non-whitespace character), `=`
announces a value, `>`/`/` return to the opening-tag state, other characters
join the attribute name, end of input abandons the tag. -/
def attrNameLoopF : Nat → TokCfg → AttrNameExit × TokCfg
  | 0, cfg => (.endedExit, cfg)
  | n + 1, cfg =>
    match qNext cfg.stream with
    | none => (.endedExit, cfg)
    | some (c, s') =>
      if rustIsWhitespace c then
        let s2 := qNextUntil (fun ch => !rustIsWhitespace ch) s'
        match qNext s2 with
        | some (c2, s3) => (.wsBreak, { cfg with stream := qPush c2 s3 })
        | none => (.endedExit, { cfg with stream := s2 })
      else if c = '=' then (.gotEq, { cfg with stream := s' })
      else if c = '>' ∨ c = '/' then (.toOpening, { cfg with stream := qPush c s' })
      else attrNameLoopF n (tsPushAttrName c { cfg with stream := s' })

def attrNameLoop (cfg : TokCfg) : AttrNameExit × TokCfg :=
  attrNameLoopF (cfg.stream.remaining + 1) cfg

/-- The `AttributeValue` gathering loop (state.rs:272); the returned flag is
`ended` (end of input before the value terminated). -/
def attrValueGatherF (qt : AttributeQuote) : Nat → TokCfg → Bool × TokCfg
  | 0, cfg => (true, cfg)
  | n + 1, cfg =>
    match qNext cfg.stream with
    | none => (true, cfg)
    | some (c, s') =>
      if c = '\'' ∧ qt = .single then (false, { cfg with stream := s' })
      else if c = '"' ∧ qt = .double then (false, { cfg with stream := s' })
      else if rustIsWhitespace c ∧ qt = .noQuote then (false, { cfg with stream := s' })
      else if (c = '>' ∨ c = '/') ∧ qt = .noQuote then (false, { cfg with stream := qPush c s' })
      else attrValueGatherF qt n (tsPushAttrValue c { cfg with stream := s' })

def attrValueGather (qt : AttributeQuote) (cfg : TokCfg) : Bool × TokCfg :=
  attrValueGatherF qt (cfg.stream.remaining + 1) cfg

/-- The `Comment` collection loop (state.rs:343): collect until `-->`;
partial `-`/`--` runs are re-injected into the buffer; the returned flag is
`is_closed`. -/
def commentLoopF : Nat → TokCfg → Bool × TokCfg
  | 0, cfg => (false, cfg)
  | n + 1, cfg =>
    match qNext cfg.stream with
    | none => (false, cfg)
    | some (c1, s1) =>
      if c1 = '-' then
        match qNext s1 with
        | none => (false, tsPush '-' { cfg with stream := s1 })
        | some (c2, s2) =>
          if c2 = '-' then
            match qNext s2 with
            | none => (false, tsPushStr ['-', '-'] { cfg with stream := s2 })
            | some (c3, s3) =>
              if c3 = '>' then (true, { cfg with stream := s3 })
              else commentLoopF n (tsPush c3 (tsPushStr ['-', '-'] { cfg with stream := s3 }))
          else commentLoopF n (tsPush c2 (tsPush '-' { cfg with stream := s2 }))
      else commentLoopF n (tsPush c1 { cfg with stream := s1 })

def commentLoop (cfg : TokCfg) : Bool × TokCfg :=
  commentLoopF (cfg.stream.remaining + 1) cfg

/-- The `BogusComment` loop (state.rs:389): collect everything up to `>` or
the end of input. -/
def bogusLoopF : Nat → TokCfg → TokCfg
  | 0, cfg => cfg
  | n + 1, cfg =>
    match qNext cfg.stream with
    | none => cfg
    | some (c, s') =>
      if c = '>' then { cfg with stream := s' }
      else bogusLoopF n (tsPush c { cfg with stream := s' })

def bogusLoop (cfg : TokCfg) : TokCfg :=
  bogusLoopF (cfg.stream.remaining + 1) cfg

/-! ## The tokenizer state machine

`tokenize` (state.rs:23): one `tokStep` is one iteration of the outer
`loop`.  `halt` is a `break` of that loop; the final EOF token is appended
after the loop (state.rs:472). -/

/-- Result of one tokenizer step. -/
inductive TokStepRes where
  | cont (cfg : TokCfg)
  | halt (cfg : TokCfg)

/-- One iteration of the `tokenize` loop. -/
def tokStep (cfg : TokCfg) : TokStepRes :=
  match cfg.state with
  | .data =>
    match qNext cfg.stream with
    | none => .halt (if cfg.hasData then tsEmit .text cfg else cfg)
    | some (c, s') =>
      let cfg1 := { cfg with stream := s' }
      if c = '<' then
        let cfg2 := if cfg1.hasData then tsEmit .text cfg1 else cfg1
        .cont { cfg2 with state := .openingTag }
      else if c = '\x00' then
        let cfg2 := if cfg1.hasData then tsEmit .text cfg1 else cfg1
        .cont (tsError .invalidCharacter cfg2)
      else .cont (tsPush c cfg1)
  | .openingTag =>
    match qNext cfg.stream with
    | none => .halt (tsEmit .text (tsPush '<' (tsError .unexpectedEndOfInput cfg)))
    | some (c, s') =>
      let cfg1 := { cfg with stream := s' }
      if c = '!' then
        if cfg1.hasData then .cont (tsPush '!' cfg1)
        else
          match qNext cfg1.stream with
          | none => .halt (tsError .unexpectedEndOfInput (tsEmit .comment cfg1))
          | some (c2, s2) =>
            let cfg2 := { cfg1 with stream := s2 }
            if c2 = '-' then
              match qNext cfg2.stream with
              | none =>
                .halt (tsError .unexpectedEndOfInput (tsEmit .comment (tsPush '-' cfg2)))
              | some (c3, s3) =>
                let cfg3 := { cfg2 with stream := s3 }
                if c3 = '-' then .cont { cfg3 with state := .comment }
                else
                  .cont { tsError (.unexpectedCharacter c3)
                            (tsPush c3 (tsPush '-' cfg3)) with state := .comment }
            else if c2 = 'd' ∨ c2 = 'D' then
              let (value, s3) := qCollectNext 6 cfg2.stream
              let cfg3 := { cfg2 with stream := s3 }
              if value.map toAsciiLower = ['o','c','t','y','p','e'] then
                .cont { cfg3 with state := .doctype }
              else
                .cont { tsError (.unexpectedCharacter c2)
                          (tsPushStr value (tsPush c2 cfg3)) with state := .comment }
            else
              .cont { tsError (.unexpectedCharacter c2)
                        (tsPush c2 cfg2) with state := .bogusComment }
      else if c = '/' then
        if !cfg1.hasData then .cont { cfg1 with state := .closingTag }
        else
          let cfg2 := { cfg1 with stream := qNextWhile rustIsWhitespace cfg1.stream }
          match qNext cfg2.stream with
          | some (c2, s3) =>
            let cfg3 := { cfg2 with stream := s3 }
            if c2 = '>' then .cont { tsEmit (.openerTag true) cfg3 with state := .data }
            else
              .cont { tsError (.unexpectedCharacter c2)
                        { cfg3 with stream := qPush c2 cfg3.stream } with
                      state := .attributeName }
          | none =>
            .cont { tsError .unexpectedEndOfInput (tsClear cfg2) with state := .data }
      else if c = '>' then
        if !cfg1.hasData then
          let cfgA := tsPush '<' cfg1
          .cont { tsError (.unexpectedCharacter '>')
                    { cfgA with stream := qPush '>' cfgA.stream } with state := .data }
        else .cont { tsEmit (.openerTag false) cfg1 with state := .data }
      else if isAsciiAlphanumeric c ∨ c = '-' then
        if !cfg1.hasData ∧ (rustIsNumeric c ∨ c = '-') then
          .cont { tsPush c (tsPush '<' (tsError (.unexpectedCharacter c) cfg1)) with
                  state := .data }
        else .cont (tsPush (toAsciiLower c) cfg1)
      else if rustIsWhitespace c then
        if !cfg1.hasData then
          let cfgA := tsPush '<' cfg1
          .cont { tsError (.unexpectedCharacter c)
                    { cfgA with stream := qPush c cfgA.stream } with state := .data }
        else .cont { cfg1 with stream := qPush c cfg1.stream, state := .attributeName }
      else
        if !cfg1.hasData then
          .cont { tsError (.unexpectedCharacter c)
                    { cfg1 with stream := qPush c (qPush '<' cfg1.stream) } with
                  state := .data }
        else .cont (tsPush c cfg1)
  | .attributeName =>
    match attrNameLoop cfg with
    | (.gotEq, cfg1) => .cont { cfg1 with state := .attributeValue }
    | (.endedExit, cfg1) => .halt (tsClear (tsError .unexpectedEndOfInput cfg1))
    | (.toOpening, cfg1) =>
      let cfg2 := if cfg1.cacheName ≠ [] then tsCollectAttr .noQuote cfg1 else cfg1
      .cont { cfg2 with state := .openingTag }
    | (.wsBreak, cfg1) =>
      let cfg2 := if cfg1.cacheName ≠ [] then tsCollectAttr .noQuote cfg1 else cfg1
      .cont cfg2
  | .attributeValue =>
    match qNext cfg.stream with
    | none => .halt (tsError .unexpectedEndOfInput cfg)
    | some (c, s0) =>
      let cfg0 := { cfg with stream := s0 }
      let qtc : AttributeQuote × TokCfg :=
        if c = '\'' then (.single, cfg0)
        else if c = '"' then (.double, cfg0)
        else
          let cfgA := if c = '<' then tsError (.unexpectedCharacter '<') cfg0 else cfg0
          (.noQuote, { cfgA with stream := qPush c cfgA.stream })
      match attrValueGather qtc.1 qtc.2 with
      | (true, cfg2) => .cont { tsError .unexpectedEndOfInput cfg2 with state := .attributeName }
      | (false, cfg2) => .cont { tsCollectAttr qtc.1 cfg2 with state := .attributeName }
  | .closingTag =>
    match qNext cfg.stream with
    | none => .cont (tsError .unexpectedEndOfInput cfg)
    | some (c, s') =>
      let cfg1 := { cfg with stream := s' }
      if rustIsWhitespace c then
        if !cfg1.hasData then .cont { tsError .expectedTagName cfg1 with state := .data }
        else .cont cfg1
      else if isAsciiAlphanumeric c ∨ c = '-' then
        if !cfg1.hasData ∧ rustIsNumeric c then
          .cont { tsError (.unexpectedCharacter c)
                    { cfg1 with stream := qPush c cfg1.stream } with state := .bogusComment }
        else .cont (tsPush (toAsciiLower c) cfg1)
      else if c = '>' then
        if !cfg1.hasData then .cont { tsError .expectedTagName cfg1 with state := .data }
        else .cont { tsEmit .close cfg1 with state := .data }
      else
        if !cfg1.hasData then
          .cont { tsError (.unexpectedCharacter c)
                    { cfg1 with stream := qPush c cfg1.stream } with state := .bogusComment }
        else .cont (tsPush c cfg1)
  | .comment =>
    match commentLoop cfg with
    | (isClosed, cfg1) =>
      let cfg2 := if !isClosed then tsError .unclosedComment cfg1 else cfg1
      .cont { tsEmit .comment cfg2 with state := .data }
  | .bogusComment => .cont { tsEmit .comment (bogusLoop cfg) with state := .data }
  | .doctype =>
    let step1 : Bool × TokCfg :=
      match qNext cfg.stream with
      | some (c, s') =>
        let cfgA := { cfg with stream := s' }
        if rustIsWhitespace c then
          (false, { cfgA with stream := qNextWhile rustIsWhitespace cfgA.stream })
        else (false, tsError (.unexpectedCharacter c) { cfgA with stream := qPush c cfgA.stream })
      | none => (true, cfg)
    let ended1 := step1.1
    let cfg1 := step1.2
    let collected := qCollectUntil (fun ch => rustIsWhitespace ch ∨ ch = '>') cfg1.stream
    let name := collected.1
    let cfg2 := { cfg1 with stream := qNextWhile rustIsWhitespace collected.2 }
    let step2 : Bool × Option DocTypeIdentifier × TokCfg :=
      match qNext cfg2.stream with
      | some (c, s3) =>
        let cfg3 := { cfg2 with stream := s3 }
        if c = '>' then (false, none, tsError (.unexpectedCharacter '>') cfg3)
        else if c = '\x00' then
          (false, none, tsPush '\uFFFD' (tsError .invalidCharacter cfg3))
        else if c = 'p' ∨ c = 'P' ∨ c = 's' ∨ c = 'S' then
          let coll5 := qCollectNext 5 cfg3.stream
          let identifierString := c :: coll5.1
          let cfg4 := { cfg3 with stream := coll5.2 }
          if identifierString.map toAsciiLower = ['s','y','s','t','e','m'] then
            (false, some .system, cfg4)
          else if identifierString.map toAsciiLower = ['p','u','b','l','i','c'] then
            (false, some .public, cfg4)
          else
            (false, none,
              { tsError .indecipherableDocType cfg4 with
                stream := qFind (fun ch => ch = '>') cfg4.stream })
        else
          (false, none,
            { tsError .indecipherableDocType cfg3 with
              stream := qFind (fun ch => ch = '>') cfg3.stream })
      | none => (true, none, cfg2)
    let ended2 := step2.1
    let identifier := step2.2.1
    let cfg5 := step2.2.2
    if ended1 ∨ ended2 then .halt (tsError .unexpectedEndOfInput cfg5)
    else .cont { tsEmit (.docType name identifier) cfg5 with state := .data }

/-- Run the tokenizer loop with bounded fuel; `none` means the loop did not
finish (the source tokenizer does not terminate on such inputs). -/
def tokLoop : Nat → TokCfg → Option TokCfg
  | 0, _ => none
  | n + 1, cfg =>
    match tokStep cfg with
    | .halt c => some c
    | .cont c => tokLoop n c

/-- The initial tokenizer configuration for an input string. -/
def tokInit (input : List Char) : TokCfg :=
  ⟨.data, ⟨[], input⟩, [], [], none, false, [], [], []⟩

/-- `tokenize` (state.rs:23) followed by the EOF push (state.rs:472), under
`fuel` loop iterations. -/
def htmlTokenize (fuel : Nat) (input : List Char) :
    Option (List HtmlTokenT × List HtmlParseErrorType) :=
  (tokLoop fuel (tokInit input)).map (fun c => (c.tokens ++ [.eof], c.errors))

/-! ### Claims C7 and C8 -/

/-- The token/diagnostic shape claim C8 predicts for `"<123></123>"`: two
bogus-comment tokens, then EOF, with two diagnostics. -/
def bogusPairShape : Option (List HtmlTokenT × List HtmlParseErrorType) → Bool
  | some ([HtmlTokenT.comment _, HtmlTokenT.comment _, HtmlTokenT.eof], errs) =>
    errs.length = 2
  | _ => false

/-- C8 counterexample: tokenizing `"<123></123>"` does produce three tokens
and two diagnostics, but the first token is a *text* token `"<123>"` (the
opening side is reparsed as text, state.rs:157), not a bogus comment; only the
closing side becomes a bogus comment. -/
theorem c8_counterexample :
    bogusPairShape (htmlTokenize 200 "<123></123>".toList) = false ∧
    htmlTokenize 200 "<123></123>".toList =
      some ([.text "<123>".toList, .comment "123".toList, .eof],
            [.unexpectedCharacter '1', .unexpectedCharacter '1']) :=
  ⟨rfl, rfl⟩

/-- C8 (amended).  Tokenizing `"<123></123>"` produces exactly two
diagnostics (one per side: `UnexpectedCharacter('1')` twice) and exactly three
tokens: a text token `"<123>"` for the reparsed opening side and one
bogus-comment token `"123"` for the closing side, followed by the EOF
token. -/
theorem c8_tokenize_numeric_tag :
    htmlTokenize 200 "<123></123>".toList =
      some ([.text "<123>".toList, .comment "123".toList, .eof],
            [.unexpectedCharacter '1', .unexpectedCharacter '1']) := rfl

theorem tokLoop_lt_lt_cycle_none :
    ∀ (n : Nat) (e : List HtmlParseErrorType),
      tokLoop n ⟨.data, ⟨['<','<'], []⟩, [], [], none, false, [], [], e⟩ = none ∧
      tokLoop n ⟨.openingTag, ⟨['<'], []⟩, [], [], none, false, [], [], e⟩ = none := by
  intro n
  induction n with
  | zero => intro e; exact ⟨rfl, rfl⟩
  | succ n ih =>
    intro e
    refine ⟨?_, ?_⟩
    · exact (ih e).2
    · exact (ih (e ++ [HtmlParseErrorType.unexpectedCharacter '<'])).1

/-- C7 (refutation of totality).  The tokenizer does not terminate on the
input `"<<"` for any amount of fuel: the opening-tag catch-all for an empty
buffer (state.rs:179) pushes both `'<'` and the offending character back into
the *iterator* and returns to `Data`, which immediately re-reads `'<'` as a
tag opener — an exact two-step configuration cycle that only grows the error
vector. -/
theorem c7_tokenize_diverges (n : Nat) : htmlTokenize n ['<', '<'] = none := by
  match n with
  | 0 => rfl
  | 1 => rfl
  | n + 2 =>
    show (tokLoop n ⟨.data, ⟨['<','<'], []⟩, [], [], none, false, [], [],
      [HtmlParseErrorType.unexpectedCharacter '<']⟩).map _ = none
    rw [(tokLoop_lt_lt_cycle_none n [HtmlParseErrorType.unexpectedCharacter '<']).1]
    rfl

/-! ## The synchronous tree builder

From `sleek_parser/src/html/parser/synchronous.rs`, on top of the
`swap_remove` token iterator (`syncNext`).  A `none` result is a source panic:
`parse_node` hits `todo!()` on a `DocType` token (synchronous.rs:80), and
`parse_children` hits `unreachable!()` when the token vector is exhausted
without an EOF token (synchronous.rs:139). -/

/-- The void tag list — `HtmlTag::is_void` lives in `tag.rs`, which is not
among the provided sources.  Modelled from the spec: §6 "Void tag list
(normative for the builder): area, base, br, col, embed, hr, img, input,
link, meta, source, track, wbr". -/
def isVoidTag (name : List Char) : Bool :=
  ["area", "base", "br", "col", "embed", "hr", "img", "input",
   "link", "meta", "source", "track", "wbr"].any (fun t => t.toList = name)

/-- A parsed node (`HtmlNode`), spans omitted; an element carries its parsed
children. -/
inductive PNode where
  | element (name : List Char) (attributes : List HtmlAttributeT) (children : List PNode)
  | text (content : List Char)
  | comment (content : List Char)
deriving Repr

/-- The parser state: the swap_remove token iterator plus the error vector. -/
structure PState where
  iter : TokIter HtmlTokenT
  errors : List HtmlParseErrorType

def pushPErr (e : HtmlParseErrorType) (st : PState) : PState :=
  { st with errors := st.errors ++ [e] }

/-- Does this token close the named parent
(`ClosingTag { name, .. } if &name == parent_element.tag_name()`)? -/
def isMatchingClose (t : HtmlTokenT) (parentName : List Char) : Bool :=
  match t with
  | .closingTag n => n = parentName
  | _ => false

/-- `SyncHtmlParser::parse_children` (synchronous.rs:115) with the
`parse_node` dispatch (synchronous.rs:60) inlined at its call site (the two
are mutually recursive in the source; inlining makes the recursion structural
on the fuel): consume tokens until the parent's closing tag (or EOF, which
records `UnclosedTag`); text/comments become leaves, an opening tag builds an
element (recursively parsing its children unless self-closing or void, with
the `SelfClosingNonVoidTag` diagnostic for a self-closing non-void tag), a
non-matching closing tag records `UnexpectedCloseTag`, and a `DocType` token
hits `todo!()` (`none`); an exhausted iterator without EOF is
`unreachable!()` (`none`). -/
def parseChildrenF : Nat → PState → List Char → List PNode →
    Option (List PNode × PState)
  | 0, _, _, _ => none
  | n + 1, st, parentName, acc =>
    match syncNext st.iter with
    | none => none
    | some (tok, it') =>
      let st1 : PState := ⟨it', st.errors⟩
      match tok with
      | HtmlTokenT.eof => some (acc, pushPErr (.unclosedTag parentName) st1)
      | HtmlTokenT.text c => parseChildrenF n st1 parentName (acc ++ [PNode.text c])
      | HtmlTokenT.comment c => parseChildrenF n st1 parentName (acc ++ [PNode.comment c])
      | HtmlTokenT.closingTag cname =>
        if cname = parentName then some (acc, st1)
        else parseChildrenF n (pushPErr (.unexpectedCloseTag cname) st1) parentName acc
      | HtmlTokenT.openingTag name attrs sc =>
        let isVoid := isVoidTag name
        let st2 := if sc ∧ !isVoid then pushPErr .selfClosingNonVoidTag st1 else st1
        if !(sc ∨ isVoid) then
          match parseChildrenF n st2 name [] with
          | none => none
          | some (children, st3) =>
            parseChildrenF n st3 parentName (acc ++ [PNode.element name attrs children])
        else parseChildrenF n st2 parentName (acc ++ [PNode.element name attrs []])
      | HtmlTokenT.docType _ _ => none

/-- `SyncHtmlParser::parse_node` + `create_element` (synchronous.rs:60, 88)
for the top-level loop: same dispatch, one token. -/
def parseNodeF (n : Nat) (st : PState) (tok : HtmlTokenT) :
    Option (Except HtmlParseErrorType PNode × PState) :=
  match tok with
  | .text c => some (.ok (.text c), st)
  | .comment c => some (.ok (.comment c), st)
  | .closingTag name => some (.error (.unexpectedCloseTag name), st)
  | .openingTag name attrs sc =>
    let isVoid := isVoidTag name
    let st1 := if sc ∧ !isVoid then pushPErr .selfClosingNonVoidTag st else st
    if !(sc ∨ isVoid) then
      match parseChildrenF n st1 name [] with
      | none => none
      | some (children, st2) => some (.ok (.element name attrs children), st2)
    else some (.ok (.element name attrs []), st1)
  | .docType _ _ => none
  | .eof => none

/-- The top-level token loop of `SyncHtmlParser::parse` (synchronous.rs:44):
drain the iterator, skipping EOF tokens, collecting nodes and errors. -/
def syncTopLoopF : Nat → PState → List PNode → Option (List PNode × PState)
  | 0, _, _ => none
  | n + 1, st, acc =>
    match syncNext st.iter with
    | none => some (acc, st)
    | some (tok, it') =>
      let st1 : PState := ⟨it', st.errors⟩
      if tok.isEof then syncTopLoopF n st1 acc
      else
        match parseNodeF n st1 tok with
        | none => none
        | some (.ok node, st2) => syncTopLoopF n st2 (acc ++ [node])
        | some (.error e, st2) => syncTopLoopF n (pushPErr e st2) acc

/-- `SyncHtmlParser::parse` after tokenization: the token vector (with its
trailing EOF) is drained through the swap_remove iterator with
`rev_separator = len >> 1`.  The fuel `2 * length + 2` dominates the call
depth: every iterator step removes a token. -/
def syncParseTokens (toks : List HtmlTokenT) (errs0 : List HtmlParseErrorType) :
    Option (List PNode × List HtmlParseErrorType) :=
  match syncTopLoopF (2 * toks.length + 2) ⟨⟨toks, 0, toks.length >>> 1⟩, errs0⟩ [] with
  | none => none
  | some (nodes, st) => some (nodes, st.errors)

/-- `parse_html_input(input, Synchronous)` (html/mod.rs:28 +
synchronous.rs:28): tokenize, then build the tree. -/
def parseHtmlSync (fuel : Nat) (input : List Char) :
    Option (List PNode × List HtmlParseErrorType) :=
  match htmlTokenize fuel input with
  | none => none
  | some (toks, errs) => syncParseTokens toks errs

/-- Evidence that the builder embedding is live: the spec's scenario 1 input
parses into one `html` element with a text child and no diagnostics. -/
theorem syncParse_valid_html :
    parseHtmlSync 200 "<html lang=en>This is valid html.</html>".toList =
      some ([PNode.element "html".toList
              [⟨"lang".toList, some "en".toList, AttributeQuote.noQuote⟩]
              [PNode.text "This is valid html.".toList]], []) := rfl

/-! ### Claim C1 -/

/-- C1 (refutation).  A doctype declaration makes the synchronous parse hit
`todo!()` and panic instead of returning a result: the tokenizer emits a
`DocType` token for `"<!doctype html>"`, and `parse_node` has no arm for it
(synchronous.rs:80).  (Independently, `parse` cannot return on `"<<"` at all:
the tokenizer it must run first never terminates there, see the C7
theorem.) -/
theorem c1_doctype_panics :
    htmlTokenize 100 "<!doctype html>".toList =
      some ([.docType "html".toList none, .eof], [.unexpectedCharacter '>']) ∧
    syncParseTokens [.docType "html".toList none, .eof] [.unexpectedCharacter '>'] = none ∧
    parseHtmlSync 100 "<!doctype html>".toList = none :=
  ⟨rfl, rfl, rfl⟩

end Sleek
